import Mathlib

/-!
# Verification of the jaces pipeline core against its specification

Shallow embedding of the pipeline machinery of the repository
(`src/sources/base/...` and the per-source processors/detectors), with
theorems settling the spec claims.  Times are modelled as exact rationals
(seconds, UTC) or as natural numbers of minutes since the Unix epoch for the
cron scheduler; floating point arithmetic of the source is modelled by exact
rational arithmetic.
-/

namespace Jaces

/-! ## Cron scheduling (`should_sync`, sync_sources.py)

The source delegates cron evaluation to the external `croniter` library:
`croniter(cron_schedule, last_sync).get_next(datetime)`.  The library is not
part of the repository, so the 5-field cron semantics (standard Vixie cron,
interpreted in UTC, `get_next` returning the first matching minute strictly
after the start instant, day-of-month/day-of-week OR rule when both fields
are restricted) is modelled here from its documented behaviour.  Instants are
minutes since the Unix epoch. -/

/-- Civil date (year, month, day) from a count of days since 1970-01-01,
using the standard Gregorian conversion algorithm. -/
def civilFromDays (z : Nat) : Nat × Nat × Nat :=
  let z' := z + 719468
  let era := z' / 146097
  let doe := z' % 146097
  let yoe := (doe - doe / 1460 + doe / 36524 - doe / 146096) / 365
  let y := yoe + era * 400
  let doy := doe - (365 * yoe + yoe / 4 - yoe / 100)
  let mp := (5 * doy + 2) / 153
  let d := doy - (153 * mp + 2) / 5 + 1
  let m := if mp < 10 then mp + 3 else mp - 9
  (if m ≤ 2 then y + 1 else y, m, d)

/-- A parsed 5-field cron expression: the allowed values of each field, plus
whether the day-of-month / day-of-week fields were the unrestricted `*`
(which decides the AND/OR combination rule of standard cron). -/
structure Cron where
  minutes : List Nat
  hours : List Nat
  doms : List Nat
  months : List Nat
  dows : List Nat
  domStar : Bool
  dowStar : Bool
deriving Repr, DecidableEq

/-- Split a character list at every separator character satisfying `p`
(the pieces keep their order; separators are dropped; empty pieces kept). -/
def splitChars (p : Char → Bool) (acc : List Char) : List Char → List (List Char)
  | [] => [acc.reverse]
  | c :: cs =>
    if p c then acc.reverse :: splitChars p [] cs else splitChars p (c :: acc) cs

/-- Parse a decimal numeral (rejecting anything else). -/
def parseNum (s : List Char) : Option Nat :=
  if s ≠ [] ∧ s.all Char.isDigit then
    some (s.foldl (fun n c => 10 * n + (c.toNat - 48)) 0)
  else none

/-- Expand a numeric cron range base (`a` or `a-b`) with a step into the
list of allowed values; `a` with an explicit step means `a-hi` (as in
croniter), while a bare `a` is the singleton. -/
def parseBase (lo hi : Nat) (expandSingle : Bool) (step : Nat) (base : List Char) :
    Option (List Nat) :=
  if step = 0 then none
  else if base = ['*'] then
    some (((List.range (hi + 1 - lo)).map (lo + ·)).filter (fun v => (v - lo) % step = 0))
  else
    match splitChars (· = '-') [] base with
    | [a] =>
      match parseNum a with
      | some av =>
        if lo ≤ av ∧ av ≤ hi then
          if expandSingle then
            some (((List.range (hi + 1 - av)).map (av + ·)).filter (fun v => (v - av) % step = 0))
          else some [av]
        else none
      | none => none
    | [a, b] =>
      match parseNum a, parseNum b with
      | some av, some bv =>
        if lo ≤ av ∧ av ≤ bv ∧ bv ≤ hi then
          some (((List.range (bv + 1 - av)).map (av + ·)).filter (fun v => (v - av) % step = 0))
        else none
      | _, _ => none
    | _ => none

/-- Expand one cron atom (`*`, `a`, `a-b`, each optionally `/step`). -/
def parseAtom (lo hi : Nat) (s : List Char) : Option (List Nat) :=
  match splitChars (· = '/') [] s with
  | [base] => parseBase lo hi false 1 base
  | [base, st] =>
    match parseNum st with
    | some step => parseBase lo hi true step base
    | none => none
  | _ => none

/-- Expand a whole cron field (a comma-separated list of atoms). -/
def parseField (lo hi : Nat) (s : List Char) : Option (List Nat) :=
  (splitChars (· = ',') [] s).foldr
    (fun a acc =>
      match parseAtom lo hi a, acc with
      | some vs, some rest => some (vs ++ rest)
      | _, _ => none)
    (some [])

/-- Parse a standard 5-field cron expression (minute, hour, day-of-month,
month, day-of-week); rejects anything that does not split into exactly five
valid fields.  Day-of-week values are taken modulo 7 (7 = Sunday = 0). -/
def parseCron (s : String) : Option Cron :=
  let fields := (splitChars (fun c => c = ' ' ∨ c = '\t') [] s.data).filter (· ≠ [])
  match fields with
  | [fmin, fhour, fdom, fmon, fdow] =>
    match parseField 0 59 fmin, parseField 0 23 fhour, parseField 1 31 fdom,
          parseField 1 12 fmon, parseField 0 7 fdow with
    | some ms, some hs, some ds, some mos, some dws =>
      some ⟨ms, hs, ds, mos, dws.map (· % 7), fdom = ['*'], fdow = ['*']⟩
    | _, _, _, _, _ => none
  | _ => none

/-- Does the instant `t` (minutes since epoch, UTC) match the cron? -/
def cronMatches (c : Cron) (t : Nat) : Bool :=
  let days := t / 1440
  let minute := t % 60
  let hour := (t % 1440) / 60
  let ymd := civilFromDays days
  let dow := (days + 4) % 7
  c.minutes.contains minute && c.hours.contains hour && c.months.contains ymd.2.1 &&
    (if c.domStar || c.dowStar then
      c.doms.contains ymd.2.2 && c.dows.contains dow
    else
      c.doms.contains ymd.2.2 || c.dows.contains dow)

/-- Search for the first matching minute strictly after `t`, with fuel. -/
def cronNextFuel (c : Cron) : Nat → Nat → Option Nat
  | 0, _ => none
  | fuel + 1, t =>
    if cronMatches c (t + 1) then some (t + 1) else cronNextFuel c fuel (t + 1)

/-- `croniter(cron, last).get_next(datetime)`: the first matching minute
strictly after `last`; the search is bounded by four years of minutes,
matching the library's failure on unreachable expressions. -/
def cronNext (c : Cron) (last : Nat) : Option Nat :=
  cronNextFuel c (4 * 366 * 1440) last

/-- A stream row as `should_sync` (sync_sources.py) reads it: the cron
schedule column and `last_ingestion_at` (minutes since epoch, UTC). -/
structure SyncStream where
  cronSchedule : Option String
  lastIngestionAt : Option Nat
deriving Repr, DecidableEq

/-- `should_sync(stream, now)` from
src/sources/base/scheduler/tasks/sync_sources.py: no (or empty) cron
schedule → false; never synced → true; otherwise the next cron fire after
`last_ingestion_at` must be at or before `now`; any parse or search failure
inside the `try` block is caught and yields false. -/
def shouldSync (stream : SyncStream) (now : Nat) : Bool :=
  match stream.cronSchedule with
  | none => false
  | some s =>
    if s = "" then false
    else
      match stream.lastIngestionAt with
      | none => true
      | some last =>
        match parseCron s with
        | none => false
        | some c =>
          match cronNext c last with
          | none => false
          | some nxt => nxt ≤ now

/-- The concrete cron of spec scenario 5, `0 */3 * * *`, as parsed. -/
def exCron : Cron := (parseCron "0 */3 * * *").get (by decide)

/-! ## Idempotency keys (dedup.py) and the Google Calendar stream processor

`generate_idempotency_key` from src/sources/base/processing/dedup.py, and the
key computation of src/sources/google/calendar/stream_processor.py.
Datetimes are modelled by their canonical ISO-8601 string: for strings
containing `T`, `DataNormalizer.normalize_timestamp` parses with
`fromisoformat` after rewriting a trailing `Z` to `+00:00`, and
`datetime.isoformat()` restores exactly that string, so the parse/format
round trip is the trailing-`Z` rewrite.  The `hashlib.md5` fallback of the
`multiple` strategy is an external primitive and is passed as a function
parameter. -/

/-- Python truthiness of an optional string (`None` and `""` are falsy). -/
def truthyStr : Option String → Bool
  | none => false
  | some s => s ≠ ""

/-- Python `a or b` for an optional string `a` with fallback `b`. -/
def orStr (a : Option String) (b : String) : String :=
  match a with
  | some s => if s = "" then b else s
  | none => b

/-- The fields of the `data` dict that `generate_idempotency_key` reads. -/
structure EventData where
  eventId : Option String
  dataId : Option String
  uuid : Option String
  title : Option String
  summary : Option String
  value : Option String
deriving Repr, DecidableEq

/-- `generate_idempotency_key(dedup_strategy, timestamp, data)` from
dedup.py: `multiple` appends a content key (first truthy of `event_id`,
`id`, `uuid`, else an 8-hex-digit md5 of title:summary:value) to the
isoformat timestamp; `single` is the isoformat timestamp alone; anything
else raises `ValueError` (modelled as `none`). -/
def generateIdempotencyKey (md5hex8 : String → String) (dedupStrategy : String)
    (timestampIso : String) (data : EventData) : Option String :=
  if dedupStrategy = "multiple" then
    let contentKey :=
      orStr data.eventId (orStr data.dataId (orStr data.uuid
        (md5hex8 (data.title.getD "" ++ ":" ++ data.summary.getD "" ++ ":" ++
          data.value.getD ""))))
    some (timestampIso ++ ":" ++ contentKey)
  else if dedupStrategy = "single" then
    some timestampIso
  else none

/-- `DataNormalizer.normalize_timestamp` on an ISO string followed by
`isoformat()`: a trailing `Z` becomes `+00:00`. -/
def normalizeTimestamp (s : String) : String :=
  if s.data.getLast? = some 'Z' then String.mk s.data.dropLast ++ "+00:00" else s

/-- A Google Calendar event as the stream processor reads it (the fields of
the `event` dict it touches; `start`/`end` carry the `dateTime` string when
present). -/
structure CalEvent where
  id : Option String
  summary : Option String
  status : Option String
  responseStatus : Option String
  startDateTime : Option String
  endDateTime : Option String
deriving Repr, DecidableEq

/-- `StreamProcessor._should_process_event`: skip declined/cancelled
events and events without a (truthy) id. -/
def shouldProcessEvent (ev : CalEvent) : Bool :=
  let status := ev.status.getD "confirmed"
  if status = "declined" ∨ status = "cancelled" then false
  else truthyStr ev.id

/-- `StreamProcessor._build_event_data` with the processor's configured
`event_id_fields = ['id']`: the event's `id` if the key is present, plus the
summary (defaulted to `""`). -/
def buildEventData (ev : CalEvent) : EventData :=
  { eventId := none, dataId := ev.id, uuid := none,
    title := none, summary := some (ev.summary.getD ""), value := none }

/-- The idempotency key the calendar stream processor stores for an event:
the processor is constructed with `dedup_strategy = 'single'`
(stream_processor.py `__init__`), and events failing
`_should_process_event` or lacking parseable start/end times are skipped
(`none`). -/
def calendarEventKey (md5hex8 : String → String) (ev : CalEvent) : Option String :=
  if shouldProcessEvent ev then
    match ev.startDateTime, ev.endDateTime with
    | some st, some _ =>
      generateIdempotencyKey md5hex8 "single" (normalizeTimestamp st) (buildEventData ev)
    | _, _ => none
  else none

/-- `StreamProcessor._calculate_confidence`: signal confidence from the
event's `responseStatus` (default `accepted`). -/
def calculateEventConfidence (ev : CalEvent) : ℚ :=
  let rs := ev.responseStatus.getD "accepted"
  if rs = "accepted" ∨ rs = "" then 95/100
  else if rs = "tentative" then 7/10
  else if rs = "needsAction" then 6/10
  else 1/2

/-- The scenario-1 calendar event `{id: "e1", start: 2025-05-03T14:00Z,
end: 2025-05-03T15:00Z, status: "confirmed"}`. -/
def e1Event : CalEvent :=
  ⟨some "e1", some "Board meeting", some "confirmed", none,
    some "2025-05-03T14:00:00Z", some "2025-05-03T15:00:00Z"⟩

/-- An md5 stand-in; the `single`-strategy path never evaluates it. -/
def md5Unused : String → String := fun _ => ""

/-! ## The token refresh task (`refresh_expiring_tokens`, sync_sources.py)

The task selects the active sources whose `oauth_expires_at` lies within the
next hour and which have a refresh token, but its loop body only logs a
warning ("refresh logic needs update"): no token is updated and nothing is
ever appended to the `refreshed` list.  Times are seconds since epoch. -/

/-- A row of the `sources` table as the task reads it. -/
structure SourceRow where
  sourceName : String
  instanceName : String
  isActive : Bool
  oauthAccessToken : Option String
  oauthRefreshToken : Option String
  oauthExpiresAt : Option ℚ
deriving Repr, DecidableEq

/-- The outcome of one run of the task: the reported `refreshed` and
`failed` lists and the state of the `sources` table afterwards. -/
structure RefreshOutcome where
  refreshed : List String
  failed : List String
  sourcesAfter : List SourceRow
deriving Repr, DecidableEq

/-- The SQL selection of `refresh_expiring_tokens`: active sources with a
non-null `oauth_expires_at` below `now + 1h` and a non-null refresh token. -/
def refreshCandidates (sources : List SourceRow) (now : ℚ) : List SourceRow :=
  sources.filter (fun s =>
    (match s.oauthExpiresAt with
      | some e => decide (e < now + 3600)
      | none => false) &&
    s.oauthRefreshToken.isSome && s.isActive)

/-- One run of `refresh_expiring_tokens`: the loop over the candidates
either skips (falsy refresh token) or logs a warning; neither branch
refreshes a token or mutates a row. -/
def refreshExpiringTokens (sources : List SourceRow) (now : ℚ) : RefreshOutcome :=
  let step : List String × List String → SourceRow → List String × List String :=
    fun acc s => if truthyStr s.oauthRefreshToken then acc else acc
  let res := (refreshCandidates sources now).foldl step ([], [])
  { refreshed := res.1, failed := res.2, sourcesAfter := sources }

/-- An active source whose token expires in 30 minutes, with a refresh
token available. -/
def expiringSource : SourceRow :=
  ⟨"google", "default", true, some "access-tok", some "refresh-tok", some 1800⟩

/-! ## Transitions and the detector layer (sources/base/transitions)

Signal records and transitions as the detectors read and emit them; times
are rational seconds (UTC); `numpy` float arithmetic is modelled exactly
over `ℚ`. -/

/-- A signal row as the detectors read it. -/
structure SigRec where
  timestamp : ℚ
  signalValue : String
  confidence : Option ℚ
deriving Repr, DecidableEq

/-- The `Transition` dataclass of
src/sources/base/transitions/categorical.py (the `metadata` dict, which no
claim touches, is not modelled). -/
structure Transition where
  transitionTime : ℚ
  transitionType : String
  changeMagnitude : Option ℚ
  changeDirection : Option String
  beforeMean : Option ℚ
  beforeStd : Option ℚ
  afterMean : Option ℚ
  afterStd : Option ℚ
  confidence : ℚ
  detectionMethod : String
deriving Repr, DecidableEq

/-- A `data_gap` transition as both the categorical and the PELT detectors
build it: confidence 1.0, method `gap_detection`. -/
def dataGapTransition (t : ℚ) : Transition :=
  ⟨t, "data_gap", none, none, none, none, none, none, 1, "gap_detection"⟩

/-- `BaseCategoricalTransitionDetector.validate_transitions`: keep
transitions inside the `[start_time, end_time]` window whose confidence
reaches the threshold, sorted by transition time. -/
def validateTransitions (minConfidence : ℚ) (transitions : List Transition)
    (startTime endTime : ℚ) : List Transition :=
  (transitions.filter (fun t =>
    decide (startTime ≤ t.transitionTime) && decide (t.transitionTime ≤ endTime) &&
      decide (minConfidence ≤ t.confidence))).mergeSort
    (fun a b => decide (a.transitionTime ≤ b.transitionTime))

/-! ### The sleep categorical detector (ios/healthkit/sleep/detector.py) -/

/-- Lowercasing as Python's `str.lower` on the values at hand. -/
def lowerStr (s : String) : String := String.mk (s.data.map Char.toLower)

/-- `SleepTransitionDetector._calculate_confidence`: base signal confidence
(default 0.9) plus a duration boost, capped at 0.99. -/
def sleepConfidence (sig : SigRec) (durationMinutes : ℚ) : ℚ :=
  let base := sig.confidence.getD (9/10)
  let boost : ℚ :=
    if durationMinutes ≥ 30 then 5/100
    else if durationMinutes ≥ 15 then 3/100
    else 0
  min (base + boost) (99/100)

/-- The loop state of `SleepTransitionDetector.detect_transitions`. -/
structure SleepLoopState where
  previousValue : Option String
  previousTimestamp : Option ℚ
  valueStart : Option ℚ
  valueDuration : ℚ
  transitions : List Transition

/-- One iteration of the sleep detection loop: skip empty values, inject a
`data_gap` (and reset tracking) on a gap beyond the threshold, and emit a
`categorical_change` when the value changes after persisting long enough. -/
def sleepStep (minValueDuration gapThresholdMinutes : ℚ)
    (st : SleepLoopState) (sig : SigRec) : SleepLoopState :=
  let currentValue := lowerStr sig.signalValue
  if currentValue = "" then st
  else
    let st1 :=
      match st.previousTimestamp with
      | some pt =>
        if (sig.timestamp - pt) / 60 > gapThresholdMinutes then
          { st with
            transitions := st.transitions ++
              (match st.previousValue with
                | some pv => if pv ≠ "" then [dataGapTransition pt] else []
                | none => [])
            previousValue := none
            valueStart := none }
        else st
      | none => st
    let st2 :=
      match st1.previousValue with
      | some pv =>
        if pv ≠ "" then
          if currentValue ≠ pv then
            let dur := match st1.valueStart with
              | some vs => (sig.timestamp - vs) / 60
              | none => st1.valueDuration
            let emitted :=
              if dur ≥ minValueDuration then
                [({ transitionTime := sig.timestamp, transitionType := "categorical_change",
                    changeMagnitude := none, changeDirection := none, beforeMean := none,
                    beforeStd := none, afterMean := none, afterStd := none,
                    confidence := sleepConfidence sig dur,
                    detectionMethod := "categorical_change" } : Transition)]
              else []
            { st1 with
              transitions := st1.transitions ++ emitted
              valueStart := some sig.timestamp
              valueDuration := dur }
          else st1
        else { st1 with valueStart := some sig.timestamp }
      | none => { st1 with valueStart := some sig.timestamp }
    { st2 with
      previousValue := some currentValue
      previousTimestamp := some sig.timestamp }

/-- `SleepTransitionDetector.detect_transitions` (defaults:
`min_duration_minutes = 5`, `gap_threshold_minutes = 30`): sorts by
timestamp and walks the loop.  The `[start_time, end_time]` parameters are
received but never used to filter the result. -/
def sleepDetectTransitions (minValueDuration gapThresholdMinutes : ℚ)
    (signals : List SigRec) (startTime endTime : ℚ) : List Transition :=
  if signals = [] then []
  else
    ((signals.mergeSort (fun a b => decide (a.timestamp ≤ b.timestamp))).foldl
      (sleepStep minValueDuration gapThresholdMinutes) ⟨none, none, none, 0, []⟩).transitions

/-! ### The calendar event-boundary detector (google/calendar/events/detector.py) -/

/-- A calendar-events signal as the detector reads it: the parsed
`timing`/`event` entries of `source_metadata` (absent or unparseable JSON
leaves every field empty) and the parsed signal timestamp.  ISO datetime
strings are modelled by their parsed time value (rational seconds UTC). -/
structure CalSig where
  timestamp : ℚ
  signalValue : Option String
  timingStart : Option ℚ
  timingEnd : Option ℚ
  durationMinutes : Option ℚ
  isAllDay : Bool
  eventId : Option String
  idempotencyKey : Option String
deriving Repr, DecidableEq

/-- `event_start.replace(hour=23, minute=59, second=59)` for all-day events
(dates on or after the epoch, microseconds preserved). -/
def allDayEventEnd (start : ℚ) : ℚ :=
  86400 * (⌊start / 86400⌋ : ℤ) + 86399 + (start - ⌊start⌋)

/-- The pair of boundary transitions the calendar detector creates for one
event: a `changepoint`/increase at the event start and a
`changepoint`/decrease at the event end, both with the fixed confidence
0.98; the end falls back to `duration_minutes`, the all-day rule, or start
plus one hour. -/
def calendarTransitionPair (sig : CalSig) : List Transition :=
  let eventStart := sig.timingStart.getD sig.timestamp
  let eventEnd :=
    match sig.timingEnd with
    | some e => e
    | none =>
      if sig.durationMinutes.getD 0 ≠ 0 then eventStart + sig.durationMinutes.getD 0 * 60
      else if sig.isAllDay then allDayEventEnd eventStart
      else eventStart + 3600
  [{ transitionTime := eventStart, transitionType := "changepoint",
     changeMagnitude := some 1, changeDirection := some "increase",
     beforeMean := some 0, beforeStd := some 0, afterMean := some 1, afterStd := some 0,
     confidence := 98/100, detectionMethod := "event_boundary" },
   { transitionTime := eventEnd, transitionType := "changepoint",
     changeMagnitude := some 1, changeDirection := some "decrease",
     beforeMean := some 1, beforeStd := some 0, afterMean := some 0, afterStd := some 0,
     confidence := 98/100, detectionMethod := "event_boundary" }]

/-- `CalendarEventsTransitionDetector.detect_transitions` (default
`min_confidence = 0.95`): two boundary transitions per event, sorted by
time, then filtered by confidence threshold and the requested window. -/
def calendarDetectTransitions (minConfidence : ℚ) (signals : List CalSig)
    (startTime endTime : ℚ) : List Transition :=
  if signals = [] then []
  else
    ((signals.flatMap calendarTransitionPair).mergeSort
        (fun a b => decide (a.transitionTime ≤ b.transitionTime))).filter
      (fun t => decide (minConfidence ≤ t.confidence) &&
        decide (startTime ≤ t.transitionTime) && decide (t.transitionTime ≤ endTime))

/-- Two sleep signals whose timestamps lie before the requested window
`[1000, 2000]`: a 10-minute `asleep_core` phase followed by `awake`. -/
def earlySleepSignals : List SigRec :=
  [⟨0, "asleep_core", none⟩, ⟨600, "awake", none⟩]

/-- A calendar-events signal for an event whose Google status is
`tentative` (the detector reads none of the status fields): one hour from
3600 to 7200. -/
def tentativeCalSig : CalSig :=
  ⟨3600, some "Standup", some 3600, some 7200, none, false, some "ev-t", none⟩

/-- The start-boundary transition the detector emits for
`tentativeCalSig`. -/
def tentativeStartTransition : Transition :=
  { transitionTime := 3600, transitionType := "changepoint",
    changeMagnitude := some 1, changeDirection := some "increase",
    beforeMean := some 0, beforeStd := some 0, afterMean := some 1, afterStd := some 0,
    confidence := 98/100, detectionMethod := "event_boundary" }

/-- The end-boundary transition the detector emits for
`tentativeCalSig`. -/
def tentativeEndTransition : Transition :=
  { transitionTime := 7200, transitionType := "changepoint",
    changeMagnitude := some 1, changeDirection := some "decrease",
    beforeMean := some 1, beforeStd := some 0, afterMean := some 0, afterStd := some 0,
    confidence := 98/100, detectionMethod := "event_boundary" }

/-! ### The PELT change-point detector (sources/base/transitions/pelt.py)

`numpy` statistics are modelled exactly over `ℚ`; the floating square root
of `np.std` is modelled by `qSqrt`, which is exact whenever the variance
has a rational square root (as in every concrete evaluation below).  The
external `ruptures` PELT segmentation (`rpt.Pelt(...).fit(...).predict(pen)`,
including the BIC penalty computed from `np.log`) is passed as an opaque
`predict` function; `ruptures` guarantees a strictly increasing breakpoint
list in `(0, n]` ending with `n`, which theorems assume as a hypothesis.
`extract_signal_values` is subclass-specific (e.g. `float(signal_value)`
per signal in the speed detector) and is likewise a parameter. -/

/-- Arithmetic mean (`np.mean`). -/
def npMean (l : List ℚ) : ℚ := l.sum / l.length

/-- Exact square root on the rationals that have one (`math`/`numpy` float
square root, modelled exactly on perfect squares). -/
def qSqrt (q : ℚ) : ℚ := (Nat.sqrt (q.num.toNat * q.den) : ℚ) / (q.den : ℚ)

/-- Population variance (`np.std` squared). -/
def npVarPop (l : List ℚ) : ℚ := ((l.map (fun x => (x - npMean l) ^ 2)).sum) / l.length

/-- Population standard deviation (`np.std`). -/
def npStd (l : List ℚ) : ℚ := qSqrt (npVarPop l)

/-- `BasePELTTransitionDetector._calculate_changepoint_confidence`: a
stability score from the average coefficient of variation of the two
segments, a penalty from the shorter segment's length, clamped into
`[min_confidence, 1.0]`; empty segments give 0.5. -/
def calcChangepointConfidence (minConfidence : ℚ) (beforeValues afterValues : List ℚ) : ℚ :=
  if beforeValues = [] ∨ afterValues = [] then 1/2
  else
    let beforeMean := npMean beforeValues
    let afterMean := npMean afterValues
    let beforeCv := if beforeMean ≠ 0 then npStd beforeValues / beforeMean else 1
    let afterCv := if afterMean ≠ 0 then npStd afterValues / afterMean else 1
    let avgCv := (beforeCv + afterCv) / 2
    let stabilityScore : ℚ :=
      if avgCv < 1/10 then 95/100
      else if avgCv < 2/10 then 85/100
      else if avgCv < 3/10 then 75/100
      else 65/100
    let minSegmentSize := min beforeValues.length afterValues.length
    let sizePenalty : ℚ :=
      if minSegmentSize < 10 then 1/10
      else if minSegmentSize < 20 then 5/100
      else 0
    max minConfidence (min 1 (stabilityScore - sizePenalty))

/-- The average coefficient of variation of two segments, exactly as the
confidence computation forms it. -/
def avgCV (beforeValues afterValues : List ℚ) : ℚ :=
  ((if npMean beforeValues ≠ 0 then npStd beforeValues / npMean beforeValues else 1) +
    (if npMean afterValues ≠ 0 then npStd afterValues / npMean afterValues else 1)) / 2

/-- The spec's stability table: CV < 0.1 → 0.95; < 0.2 → 0.85; < 0.3 →
0.75; else 0.65 (stated from the spec wording, for comparison with the
source's computation). -/
def specStabilityScore (avgCv : ℚ) : ℚ :=
  if avgCv < 1/10 then 95/100
  else if avgCv < 2/10 then 85/100
  else if avgCv < 3/10 then 75/100
  else 65/100

/-- The spec's length penalty: 0.10 under 10 points, 0.05 under 20 (stated
from the spec wording, for comparison with the source's computation). -/
def specSizePenalty (minLen : ℕ) : ℚ :=
  if minLen < 10 then 1/10
  else if minLen < 20 then 5/100
  else 0

/-- Python slice `l[s:e]`. -/
def sliceList (l : List ℚ) (s e : ℕ) : List ℚ := (l.drop s).take (e - s)

/-- Consecutive triples of a list (the loop over
`segment_boundaries[i-1], [i], [i+1]`). -/
def cpTriples : List ℕ → List (ℕ × ℕ × ℕ)
  | a :: b :: c :: rest => (a, b, c) :: cpTriples (b :: c :: rest)
  | _ => []

/-- Placeholder signal for out-of-range indexing (unreachable under the
`ruptures` breakpoint contract). -/
def defaultSigRec : SigRec := ⟨0, "", none⟩

/-- One changepoint transition of
`BasePELTTransitionDetector._convert_changepoints_to_transitions`: segment
statistics around boundary index `m`, timed at `signals[m]`. -/
def mkChangepointTransition (minConfidence : ℚ) (psigs : List SigRec) (values : List ℚ)
    (bs m asEnd : ℕ) : Transition :=
  let beforeValues := sliceList values bs m
  let afterValues := sliceList values m asEnd
  let beforeMean : Option ℚ := if beforeValues = [] then none else some (npMean beforeValues)
  let afterMean : Option ℚ := if afterValues = [] then none else some (npMean afterValues)
  { transitionTime := (psigs.getD m defaultSigRec).timestamp
    transitionType := "changepoint"
    changeMagnitude :=
      match beforeMean, afterMean with
      | some bm, some am => some |am - bm|
      | _, _ => none
    changeDirection :=
      match beforeMean, afterMean with
      | some bm, some am => some (if bm < am then "increase" else "decrease")
      | _, _ => none
    beforeMean := beforeMean
    beforeStd := if beforeValues = [] then none else some (npStd beforeValues)
    afterMean := afterMean
    afterStd := if afterValues = [] then none else some (npStd afterValues)
    confidence := calcChangepointConfidence minConfidence beforeValues afterValues
    detectionMethod := "pelt_changepoint" }

/-- `_convert_changepoints_to_transitions`: drop the trailing breakpoint at
`len(values)`, return nothing when no interior breakpoints remain, and emit
one transition per interior boundary. -/
def convertChangepoints (minConfidence : ℚ) (psigs : List SigRec) (values : List ℚ)
    (changePoints : List ℕ) : List Transition :=
  let cps :=
    if changePoints = [] ∨ changePoints.getLast? = some values.length then
      changePoints.dropLast
    else changePoints
  if cps = [] then []
  else
    (cpTriples (0 :: (cps ++ [values.length]))).map
      (fun t => mkChangepointTransition minConfidence psigs values t.1 t.2.1 t.2.2)

/-- The PELT detector's configuration (defaults of
`BasePELTTransitionDetector.__init__` and `merge_close_transitions`). -/
structure PeltConfig where
  minConfidence : ℚ := 8/10
  gapThresholdSeconds : ℚ := 900
  minSegmentSize : Nat := 5
  minTransitionGap : ℚ := 300
deriving Repr, DecidableEq

/-- The shared accumulate-and-split loop of `detect_collection_periods`
and `merge_close_transitions`: walk the list, starting a new chunk exactly
where `newChunk prev cur` holds between consecutive elements. -/
def chunkBy {α : Type} (newChunk : α → α → Bool) (a : α) :
    List α → List α × List (List α)
  | [] => ([a], [])
  | b :: rest =>
    let r := chunkBy newChunk b rest
    if newChunk a b then ([a], r.1 :: r.2) else (a :: r.1, r.2)

/-- The chunks of a list under `chunkBy`. -/
def chunksBy {α : Type} (newChunk : α → α → Bool) : List α → List (List α)
  | [] => []
  | a :: rest =>
    let r := chunkBy newChunk a rest
    r.1 :: r.2

/-- The split condition of `detect_collection_periods`: a new period
starts where the inter-sample gap exceeds the threshold. -/
def runGapSplit (gapThreshold : ℚ) (a b : SigRec) : Bool :=
  decide (b.timestamp - a.timestamp > gapThreshold)

/-- `detect_collection_periods` on an already sorted signal list: the
maximal runs with inter-sample gaps at most the threshold. -/
def collectionRuns (gapThreshold : ℚ) (l : List SigRec) : List (List SigRec) :=
  chunksBy (runGapSplit gapThreshold) l

/-- A collection period's end (the last signal's timestamp). -/
def periodEndTime (r : List SigRec) : ℚ := ((r.getLast?).map (fun s => s.timestamp)).getD 0

/-- A collection period's start (the first signal's timestamp). -/
def periodStartTime (r : List SigRec) : ℚ := ((r.head?).map (fun s => s.timestamp)).getD 0

/-- `_run_pelt_detection` guarded by the caller's size check: extract
values, run the (external) PELT prediction, convert breakpoints. -/
def peltRunTransitions (cfg : PeltConfig) (predict : List ℚ → List Nat)
    (extract : List SigRec → List ℚ) (psigs : List SigRec) : List Transition :=
  if psigs.length ≥ 2 * cfg.minSegmentSize then
    let values := extract psigs
    if values.length < 2 * cfg.minSegmentSize then []
    else convertChangepoints cfg.minConfidence psigs values (predict values)
  else []

/-- The per-period loop of `detect_transitions`: PELT transitions of each
period, a `data_gap` at each period end (for the last period only when the
window extends a further gap beyond it); collection-start transitions are
suppressed (`create_collection_transition` returns `None` for starts). -/
def buildPeriodTransitions (cfg : PeltConfig) (predict : List ℚ → List Nat)
    (extract : List SigRec → List ℚ) (endTime : ℚ) :
    List (List SigRec) → List Transition
  | [] => []
  | [r] =>
    peltRunTransitions cfg predict extract r ++
      (if endTime - periodEndTime r > cfg.gapThresholdSeconds then
        [dataGapTransition (periodEndTime r)]
      else [])
  | r :: r2 :: rest =>
    peltRunTransitions cfg predict extract r ++ [dataGapTransition (periodEndTime r)] ++
      buildPeriodTransitions cfg predict extract endTime (r2 :: rest)

/-- Python's `max(group, key=lambda t: t.confidence)`: the first transition
attaining the maximal confidence. -/
def maxConfFold (t : Transition) (rest : List Transition) : Transition :=
  rest.foldl (fun acc u => if acc.confidence < u.confidence then u else acc) t

/-- `_merge_transition_group`: singletons unchanged; otherwise the
highest-confidence member represents the group, its confidence boosted by
10% and capped at 1.0 (the merge annotations live in the unmodelled
metadata dict). -/
def mergeTransitionGroup : List Transition → Option Transition
  | [] => none
  | [t] => some t
  | t :: u :: rest =>
    let rep := maxConfFold t (u :: rest)
    some { rep with confidence := min 1 (rep.confidence * (11/10)) }

/-- The grouping condition of `merge_close_transitions`: a transition joins
the current group when its gap to the previous one is under the minimum
gap, and a new group starts otherwise. -/
def groupGapSplit (minGap : ℚ) (a b : Transition) : Bool :=
  !decide (b.transitionTime - a.transitionTime < minGap)

/-- Maximal groups of time-close transitions in a sorted list. -/
def groupCloseTransitions (minGap : ℚ) (l : List Transition) : List (List Transition) :=
  chunksBy (groupGapSplit minGap) l

/-- `merge_close_transitions`: sort by time, group transitions closer than
`min_transition_gap`, keep one representative per group. -/
def mergeCloseTransitions (minGap : ℚ) (transitions : List Transition) : List Transition :=
  if transitions.length ≤ 1 then transitions
  else
    (groupCloseTransitions minGap (transitions.mergeSort
      (fun a b => decide (a.transitionTime ≤ b.transitionTime)))).filterMap
      mergeTransitionGroup

/-- `BasePELTTransitionDetector.detect_transitions`: collection periods of
the sorted signals, per-period PELT changepoints and `data_gap`
transitions, close-transition merging, and window/confidence
validation. -/
def peltDetectTransitions (cfg : PeltConfig) (predict : List ℚ → List Nat)
    (extract : List SigRec → List ℚ) (signals : List SigRec)
    (startTime endTime : ℚ) : List Transition :=
  if signals = [] then []
  else
    validateTransitions cfg.minConfidence
      (mergeCloseTransitions cfg.minTransitionGap
        (buildPeriodTransitions cfg predict extract endTime
          (collectionRuns cfg.gapThresholdSeconds
            (signals.mergeSort (fun a b => decide (a.timestamp ≤ b.timestamp))))))
      startTime endTime

/-- A noisy 20-point segment alternating between 1 and 3: mean 2,
population standard deviation 1, CV 0.5. -/
def noisySegment : List ℚ := [1, 3, 1, 3, 1, 3, 1, 3, 1, 3, 1, 3, 1, 3, 1, 3, 1, 3, 1, 3]

/-- The detector's default configuration. -/
def peltDefaults : PeltConfig := {}

/-- A PELT oracle finding no changepoints (its output is irrelevant below:
the runs are too short for `_run_pelt_detection` to be invoked). -/
def predictNone : List ℚ → List Nat := fun _ => []

/-- An extractor mapping every signal value to 0 (speed-style extraction on
constant-zero values). -/
def extractZero : List SigRec → List ℚ := fun l => l.map (fun _ => 0)

/-- Two samples separated by a 1000 s gap (beyond the default 900 s
threshold), both before the requested window `[5000, 6000]`. -/
def gapSignals : List SigRec := [⟨0, "0", none⟩, ⟨1000, "0", none⟩]

/-! ## The day segmenter (`generate_events_hdbscan`, signal_analysis.py)

Phases 5–6 of the task: from the (sorted, possibly reduced) boundary list
produced by the clustering phases, add synthetic day-edge boundaries, build
consecutive-pair segments, drop short edge segments and store the rest as
`events` rows.  The stored `cluster_id` is the segment's index in the full
segment list; no "unknown"/`-1` filler rows exist anywhere in the task. -/

/-- A consolidated boundary (timestamp in rational seconds UTC within the
day window, confidence). -/
structure Boundary where
  timestamp : ℚ
  confidence : ℚ
deriving Repr, DecidableEq

/-- One entry of the `segments` list of Phase 5. -/
structure SegmentInfo where
  segmentIndex : Nat
  startTime : ℚ
  endTime : ℚ
  entryConfidence : ℚ
  isEdgeSegment : Bool
  durationMinutes : ℚ
deriving Repr, DecidableEq

/-- A stored `events` row (the fields the claims concern). -/
structure EventRow where
  clusterId : ℤ
  startTime : ℚ
  endTime : ℚ
  coreDensity : ℚ
deriving Repr, DecidableEq

/-- A synthetic day-edge boundary (confidence 0, no transitions). -/
def synthBoundary (t : ℚ) : Boundary := ⟨t, 0⟩

/-- The first boundary's timestamp (`boundaries[0]['timestamp']`). -/
def firstBTime (boundaries : List Boundary) : ℚ :=
  ((boundaries.head?).map (fun b => b.timestamp)).getD 0

/-- The last boundary's timestamp (`boundaries[-1]['timestamp']`). -/
def lastBTime (boundaries : List Boundary) : ℚ :=
  ((boundaries.getLast?).map (fun b => b.timestamp)).getD 0

/-- Phase 5's `all_boundaries`: with no boundaries at all, one full-day
pair; otherwise a synthetic start boundary when the data starts more than
15 min into the day, the real boundaries, and a synthetic end boundary when
the data ends between 15 min and 4 h before day end (a larger end gap means
the data stopped early and nothing is appended). -/
def allBoundaries (boundaries : List Boundary) (startOfDay endOfDay : ℚ) : List Boundary :=
  if boundaries = [] then [synthBoundary startOfDay, synthBoundary endOfDay]
  else
    (if firstBTime boundaries - startOfDay > 900 then [synthBoundary startOfDay] else []) ++
      boundaries ++
      (if endOfDay - lastBTime boundaries > 900 ∧ endOfDay - lastBTime boundaries < 14400
        then [synthBoundary endOfDay] else [])

/-- The segment-building loop: one segment per consecutive boundary pair,
indexed from `i`, edge-flagged at index 0 and `allLen - 2`. -/
def mkSegmentsFrom (allLen : Nat) : Nat → List Boundary → List SegmentInfo
  | i, b1 :: b2 :: rest =>
    { segmentIndex := i
      startTime := b1.timestamp
      endTime := b2.timestamp
      entryConfidence := b1.confidence
      isEdgeSegment := i = 0 ∨ i = allLen - 2
      durationMinutes := (b2.timestamp - b1.timestamp) / 60 } ::
      mkSegmentsFrom allLen (i + 1) (b2 :: rest)
  | _, _ => []

/-- Phase 5's `segments` list. -/
def mkSegments (allB : List Boundary) : List SegmentInfo :=
  mkSegmentsFrom allB.length 0 allB

/-- Phase 6's skip: edge segments shorter than 5 minutes are not stored. -/
def keepSegment (s : SegmentInfo) : Bool :=
  !(s.isEdgeSegment && decide (s.durationMinutes < 5))

/-- The `events` row stored for a segment: `cluster_id` is the segment
index, `core_density` the entry boundary confidence. -/
def segmentRow (s : SegmentInfo) : EventRow :=
  ⟨(s.segmentIndex : ℤ), s.startTime, s.endTime, s.entryConfidence⟩

/-- Phases 5–6 end to end: the rows stored for the date. -/
def emitSegments (boundaries : List Boundary) (startOfDay endOfDay : ℚ) : List EventRow :=
  ((mkSegments (allBoundaries boundaries startOfDay endOfDay)).filter keepSegment).map
    segmentRow

/-! ## Theorems -/

/-- C5: for every stream carrying a cron schedule and a non-null
`last_ingestion_at`, `should_sync(stream, now)` is true iff the next cron
fire time computed from `last_ingestion_at` is at or before `now`. -/
theorem shouldSync_iff_next_le_now (stream : SyncStream) (now : Nat) (s : String)
    (last : Nat) (c : Cron) (nxt : Nat) (hs : stream.cronSchedule = some s)
    (hne : s ≠ "") (hl : stream.lastIngestionAt = some last)
    (hc : parseCron s = some c) (hn : cronNext c last = some nxt) :
    shouldSync stream now = true ↔ nxt ≤ now := by
  obtain ⟨cs, li⟩ := stream
  cases hs
  cases hl
  simp [shouldSync, hne, hc, hn]

/-- C5 witness: cron `0 */3 * * *`, `last_ingestion_at` = 2025-05-03T12:00Z
(minute 29104560 since epoch), `now` = 2025-05-03T15:01Z: `should_sync` is
true, the next fire being 15:00Z (minute 29104740). -/
theorem shouldSync_iff_next_le_now_witness :
    shouldSync ⟨some "0 */3 * * *", some 29104560⟩ 29104741 = true := by
  have h1 : parseCron "0 */3 * * *" = some exCron := (Option.some_get _).symm
  have h2 : cronNext exCron 29104560 = some 29104740 := by decide
  exact (shouldSync_iff_next_le_now ⟨some "0 */3 * * *", some 29104560⟩ 29104741
    "0 */3 * * *" 29104560 exCron 29104740 rfl (by decide) rfl h1 h2).mpr (by norm_num)

/-- C10: `should_sync` is total: with a cron schedule and a null
`last_ingestion_at` it returns true immediately, and with an unparsable
cron expression it returns false instead of propagating the error. -/
theorem shouldSync_total (stream : SyncStream) (now : Nat) (s : String)
    (hs : stream.cronSchedule = some s) (hne : s ≠ "") :
    (stream.lastIngestionAt = none → shouldSync stream now = true) ∧
    (∀ last, stream.lastIngestionAt = some last → parseCron s = none →
      shouldSync stream now = false) := by
  obtain ⟨cs, li⟩ := stream
  cases hs
  constructor
  · intro hl
    cases hl
    simp [shouldSync, hne]
  · intro last hl hp
    cases hl
    simp [shouldSync, hne, hp]

/-- C10 witness: a never-synced stream syncs immediately; an invalid cron
expression yields false. -/
theorem shouldSync_total_witness :
    shouldSync ⟨some "0 */3 * * *", none⟩ 0 = true ∧
    shouldSync ⟨some "not a cron", some 5⟩ 99 = false := by
  refine ⟨(shouldSync_total ⟨some "0 */3 * * *", none⟩ 0 "0 */3 * * *" rfl
    (by decide)).1 rfl, ?_⟩
  exact (shouldSync_total ⟨some "not a cron", some 5⟩ 99 "not a cron" rfl
    (by decide)).2 5 rfl (by decide)

/-- C4 counterexample: the calendar processor uses the `single` dedup
strategy, so the stored key for the scenario-1 event is the bare isoformat
timestamp, not `"2025-05-03T14:00:00+00:00:e1"`, and a second event with
the same start time gets the identical key. -/
theorem calendarEventKey_no_suffix :
    calendarEventKey md5Unused e1Event = some "2025-05-03T14:00:00+00:00" ∧
    calendarEventKey md5Unused e1Event ≠ some "2025-05-03T14:00:00+00:00:e1" ∧
    calendarEventKey md5Unused { e1Event with id := some "e2" } =
      calendarEventKey md5Unused e1Event := by decide

/-- C4 amended: for every event the calendar processor stores, the
idempotency key is exactly the normalized start timestamp (the `single`
strategy), so two processed events with equal start times receive equal
keys. -/
theorem calendarEventKey_is_start_iso (md5hex8 : String → String)
    (ev ev2 : CalEvent) (st en en2 : String)
    (hst : ev.startDateTime = some st) (hen : ev.endDateTime = some en)
    (hp : shouldProcessEvent ev = true)
    (hst2 : ev2.startDateTime = some st) (hen2 : ev2.endDateTime = some en2)
    (hp2 : shouldProcessEvent ev2 = true) :
    calendarEventKey md5hex8 ev = some (normalizeTimestamp st) ∧
    calendarEventKey md5hex8 ev2 = calendarEventKey md5hex8 ev := by
  unfold calendarEventKey
  rw [hst, hen, hst2, hen2, hp, hp2]
  simp [generateIdempotencyKey]

/-- C4 amended witness: the scenario-1 event and a same-start sibling. -/
theorem calendarEventKey_is_start_iso_witness :
    calendarEventKey md5Unused e1Event = some "2025-05-03T14:00:00+00:00" ∧
    calendarEventKey md5Unused { e1Event with id := some "e2" } =
      calendarEventKey md5Unused e1Event := by
  have h := calendarEventKey_is_start_iso md5Unused e1Event
    { e1Event with id := some "e2" } "2025-05-03T14:00:00Z" "2025-05-03T15:00:00Z"
    "2025-05-03T15:00:00Z" rfl rfl (by decide) rfl rfl (by decide)
  exact ⟨by rw [h.1]; decide, h.2⟩

/-- C1: the failing run.  `expiringSource` matches the task's selection,
yet the run reports nothing refreshed and leaves the row untouched — the
loop body is a logged warning, contradicting the task's own docstring
("Proactively refresh tokens that are about to expire") and the spec. -/
theorem refreshExpiringTokens_refreshes_nothing :
    refreshCandidates [expiringSource] 0 = [expiringSource] ∧
    (refreshExpiringTokens [expiringSource] 0).refreshed = [] ∧
    (refreshExpiringTokens [expiringSource] 0).sourcesAfter = [expiringSource] := by
  refine ⟨?_, ?_, rfl⟩ <;>
    norm_num [refreshCandidates, refreshExpiringTokens, expiringSource, List.filter]

/-- C3 counterexample: the sleep categorical detector performs no window
filtering, so with signals before the requested window `[1000, 2000]` it
returns a transition at time 600 < 1000 — a transition outside the
requested window appears in the result. -/
theorem sleepDetect_escapes_window :
    (sleepDetectTransitions 5 30 earlySleepSignals 1000 2000).map
      (fun t => t.transitionTime) = [600] ∧ (600 : ℚ) < 1000 := by
  have l1 : lowerStr "asleep_core" = "asleep_core" := by decide
  have l2 : lowerStr "awake" = "awake" := by decide
  have s1 : ("asleep_core" : String) ≠ "" := by decide
  have s2 : ("awake" : String) ≠ "" := by decide
  have s3 : ("awake" : String) ≠ "asleep_core" := by decide
  have hsort : earlySleepSignals.mergeSort
      (fun a b => decide (a.timestamp ≤ b.timestamp)) = earlySleepSignals :=
    List.mergeSort_of_sorted (by norm_num [earlySleepSignals])
  refine ⟨?_, by norm_num⟩
  rw [sleepDetectTransitions, if_neg (by simp [earlySleepSignals]), hsort]
  rw [earlySleepSignals]
  rw [List.foldl_cons, List.foldl_cons, List.foldl_nil]
  norm_num [sleepStep, l1, l2, s1, s2, s3, sleepConfidence]

/-- The calendar detector's output on the tentative event, computed. -/
theorem calendarDetect_tentative_eval :
    calendarDetectTransitions (95/100) [tentativeCalSig] 0 10000 =
      [tentativeStartTransition, tentativeEndTransition] := by
  have hsort : ([tentativeCalSig].flatMap calendarTransitionPair).mergeSort
      (fun a b => decide (a.transitionTime ≤ b.transitionTime)) =
      [tentativeCalSig].flatMap calendarTransitionPair :=
    List.mergeSort_of_sorted (by norm_num [tentativeCalSig, calendarTransitionPair])
  rw [calendarDetectTransitions, if_neg (by simp), hsort]
  norm_num [tentativeCalSig, calendarTransitionPair, tentativeStartTransition,
    tentativeEndTransition, List.filter]

/-- C8 counterexample: for a tentative event the detector still emits both
boundary transitions with confidence 0.98, not the dampened 0.7. -/
theorem calendarDetect_no_dampening :
    (calendarDetectTransitions (95/100) [tentativeCalSig] 0 10000).map
      (fun t => t.confidence) = [98/100, 98/100] ∧ (98/100 : ℚ) ≠ 7/10 := by
  rw [calendarDetect_tentative_eval]
  norm_num [tentativeStartTransition, tentativeEndTransition]

/-- C8 amended: every transition the calendar event-boundary detector
emits carries the fixed confidence 0.98 whatever the event's status; the
0.7 / 0.6 dampening for tentative / needs-action applies to the signal
confidence computed by the stream processor, not to detector
transitions. -/
theorem calendarDetect_confidence_fixed (minC : ℚ) (signals : List CalSig)
    (startTime endTime : ℚ) (t : Transition)
    (ht : t ∈ calendarDetectTransitions minC signals startTime endTime) :
    t.confidence = 98/100 ∧
    (∀ ev : CalEvent, ev.responseStatus = some "tentative" →
      calculateEventConfidence ev = 7/10) ∧
    (∀ ev : CalEvent, ev.responseStatus = some "needsAction" →
      calculateEventConfidence ev = 6/10) := by
  refine ⟨?_, ?_, ?_⟩
  · rw [calendarDetectTransitions] at ht
    by_cases hempty : signals = []
    · simp [hempty] at ht
    · rw [if_neg hempty] at ht
      have ht2 := (List.mem_filter.mp ht).1
      rw [List.mem_mergeSort] at ht2
      obtain ⟨sig, _, hpair⟩ := List.mem_flatMap.mp ht2
      rw [calendarTransitionPair] at hpair
      simp only [List.mem_cons, List.not_mem_nil, or_false] at hpair
      rcases hpair with h | h <;> rw [h]
  · intro ev hrs
    simp only [calculateEventConfidence, hrs, Option.getD_some]
    simp
  · intro ev hrs
    simp only [calculateEventConfidence, hrs, Option.getD_some]
    simp

/-- C8 amended witness: the tentative event's start transition carries
confidence 0.98 while the processor's signal confidence is dampened. -/
theorem calendarDetect_confidence_fixed_witness :
    tentativeStartTransition.confidence = 98/100 ∧
    calculateEventConfidence { e1Event with responseStatus := some "tentative" } = 7/10 ∧
    calculateEventConfidence { e1Event with responseStatus := some "needsAction" } = 6/10 := by
  have hmem : tentativeStartTransition ∈
      calendarDetectTransitions (95/100) [tentativeCalSig] 0 10000 := by
    rw [calendarDetect_tentative_eval]
    exact List.mem_cons_self _ _
  have h := calendarDetect_confidence_fixed (95/100) [tentativeCalSig] 0 10000
    tentativeStartTransition hmem
  exact ⟨h.1, h.2.1 _ rfl, h.2.2 _ rfl⟩

/-- C7 amended: for nonempty segments, the changepoint confidence is the
CV stability score minus the short-segment penalty, clamped into
`[min_confidence, 1.0]`. -/
theorem calcChangepointConfidence_clamped (minC : ℚ) (bv av : List ℚ)
    (hb : bv ≠ []) (ha : av ≠ []) :
    calcChangepointConfidence minC bv av =
      max minC (min 1 (specStabilityScore (avgCV bv av) -
        specSizePenalty (min bv.length av.length))) := by
  rw [calcChangepointConfidence, if_neg (by simp [hb, ha])]
  rfl

/-- C7 counterexample: with the detector's default `min_confidence = 0.8`,
two noisy 20-point segments give stability 0.65 and penalty 0, yet the
returned confidence is the clamp 0.8, not 0.65 as the claim's formula
states. -/
theorem calcChangepointConfidence_not_formula :
    calcChangepointConfidence (8/10) noisySegment noisySegment = 8/10 ∧
    specStabilityScore (avgCV noisySegment noisySegment) -
      specSizePenalty (min noisySegment.length noisySegment.length) = 65/100 ∧
    (8/10 : ℚ) ≠ 65/100 := by
  have hmean : npMean noisySegment = 2 := by norm_num [npMean, noisySegment]
  have hstd : npStd noisySegment = 1 := by
    rw [npStd, show npVarPop noisySegment = 1 by norm_num [npVarPop, npMean, noisySegment]]
    norm_num [qSqrt]
  have hlen : noisySegment.length = 20 := by norm_num [noisySegment]
  have hcv : avgCV noisySegment noisySegment = 1/2 := by
    rw [avgCV, hmean, hstd]
    norm_num
  refine ⟨?_, ?_, by norm_num⟩
  · rw [calcChangepointConfidence, if_neg (by simp [noisySegment])]
    simp only [hmean, hstd, hlen]
    norm_num [specStabilityScore, specSizePenalty]
  · rw [hcv, hlen]
    norm_num [specStabilityScore, specSizePenalty]

/-- C7 amended witness: the clamped formula at the concrete noisy
segments. -/
theorem calcChangepointConfidence_clamped_witness :
    calcChangepointConfidence (8/10) noisySegment noisySegment =
      max (8/10) (min 1 (specStabilityScore (avgCV noisySegment noisySegment) -
        specSizePenalty (min noisySegment.length noisySegment.length))) :=
  calcChangepointConfidence_clamped (8/10) noisySegment noisySegment
    (by simp [noisySegment]) (by simp [noisySegment])

/-- The PELT detector's output on `gapSignals` for the window
`[5000, 6000]`: the `data_gap` transitions at 0 and 1000 are both dropped
by the window validation, leaving nothing. -/
theorem peltDetect_gap_outside_eval :
    peltDetectTransitions peltDefaults predictNone extractZero gapSignals 5000 6000 = [] := by
  have hsort : gapSignals.mergeSort (fun a b => decide (a.timestamp ≤ b.timestamp)) =
      gapSignals := List.mergeSort_of_sorted (by norm_num [gapSignals])
  have hruns : collectionRuns peltDefaults.gapThresholdSeconds gapSignals =
      [[⟨0, "0", none⟩], [⟨1000, "0", none⟩]] := by
    norm_num [collectionRuns, chunksBy, chunkBy, runGapSplit, gapSignals, peltDefaults]
  have hbuild : buildPeriodTransitions peltDefaults predictNone extractZero 6000
      [[⟨0, "0", none⟩], [⟨1000, "0", none⟩]] =
      [dataGapTransition 0, dataGapTransition 1000] := by
    norm_num [buildPeriodTransitions, peltRunTransitions, periodEndTime, peltDefaults]
  have hmerge : mergeCloseTransitions peltDefaults.minTransitionGap
      [dataGapTransition 0, dataGapTransition 1000] =
      [dataGapTransition 0, dataGapTransition 1000] := by
    have hsort2 : ([dataGapTransition 0, dataGapTransition 1000] : List Transition).mergeSort
        (fun a b => decide (a.transitionTime ≤ b.transitionTime)) =
        [dataGapTransition 0, dataGapTransition 1000] :=
      List.mergeSort_of_sorted (by norm_num [dataGapTransition])
    rw [mergeCloseTransitions, if_neg (by norm_num), hsort2]
    norm_num [groupCloseTransitions, chunksBy, chunkBy, groupGapSplit, mergeTransitionGroup,
      dataGapTransition, peltDefaults, List.filterMap_cons, List.filterMap_nil]
  rw [peltDetectTransitions, if_neg (by simp [gapSignals]), hsort, hruns, hbuild, hmerge,
    validateTransitions]
  norm_num [dataGapTransition, List.filter, peltDefaults]

/-- C6 counterexample: `gapSignals` has consecutive samples 1000 s apart
(beyond `gap_threshold = 900`), yet for the window `[5000, 6000]` the
detector emits no `data_gap` transition at all — the window validation
drops gap transitions whose run ends lie outside `[start, end]`. -/
theorem peltDetect_gap_can_vanish :
    ((1000 : ℚ) - 0 > 900) ∧
    ¬∃ t ∈ peltDetectTransitions peltDefaults predictNone extractZero gapSignals 5000 6000,
      t.transitionType = "data_gap" := by
  refine ⟨by norm_num, ?_⟩
  rw [peltDetect_gap_outside_eval]
  simp

/-- The PELT detector's output on `gapSignals` for the window
`[0, 1000]`: one `data_gap` at the end of the first run. -/
theorem peltDetect_gap_inside_eval :
    peltDetectTransitions peltDefaults predictNone extractZero gapSignals 0 1000 =
      [dataGapTransition 0] := by
  have hsort : gapSignals.mergeSort (fun a b => decide (a.timestamp ≤ b.timestamp)) =
      gapSignals := List.mergeSort_of_sorted (by norm_num [gapSignals])
  have hruns : collectionRuns peltDefaults.gapThresholdSeconds gapSignals =
      [[⟨0, "0", none⟩], [⟨1000, "0", none⟩]] := by
    norm_num [collectionRuns, chunksBy, chunkBy, runGapSplit, gapSignals, peltDefaults]
  have hbuild : buildPeriodTransitions peltDefaults predictNone extractZero 1000
      [[⟨0, "0", none⟩], [⟨1000, "0", none⟩]] = [dataGapTransition 0] := by
    norm_num [buildPeriodTransitions, peltRunTransitions, periodEndTime, peltDefaults]
  have hmerge : mergeCloseTransitions peltDefaults.minTransitionGap
      [dataGapTransition 0] = [dataGapTransition 0] := by
    rw [mergeCloseTransitions, if_pos (by norm_num)]
  rw [peltDetectTransitions, if_neg (by simp [gapSignals]), hsort, hruns, hbuild, hmerge,
    validateTransitions]
  norm_num [dataGapTransition, List.filter, peltDefaults]

/-- Transitions surviving `validate_transitions` lie within the window. -/
theorem validateTransitions_window (minC : ℚ) (ts : List Transition)
    (startTime endTime : ℚ) (t : Transition)
    (ht : t ∈ validateTransitions minC ts startTime endTime) :
    startTime ≤ t.transitionTime ∧ t.transitionTime ≤ endTime := by
  rw [validateTransitions, List.mem_mergeSort] at ht
  have h := (List.mem_filter.mp ht).2
  simp only [Bool.and_eq_true, decide_eq_true_eq] at h
  exact ⟨h.1.1, h.1.2⟩

/-- C3 amended: the change-point (PELT) and calendar event-boundary
detectors only return transitions inside the requested window (the first
through `validate_transitions`, the second through its own filter); the
sleep categorical detector has no such filter (see the counterexample). -/
theorem windowed_detectors_stay_in_window
    (cfg : PeltConfig) (predict : List ℚ → List Nat) (extract : List SigRec → List ℚ)
    (signals : List SigRec) (csignals : List CalSig) (minC startTime endTime : ℚ) :
    (∀ t ∈ peltDetectTransitions cfg predict extract signals startTime endTime,
      startTime ≤ t.transitionTime ∧ t.transitionTime ≤ endTime) ∧
    (∀ t ∈ calendarDetectTransitions minC csignals startTime endTime,
      startTime ≤ t.transitionTime ∧ t.transitionTime ≤ endTime) := by
  constructor
  · intro t ht
    rw [peltDetectTransitions] at ht
    by_cases hempty : signals = []
    · simp [hempty] at ht
    · rw [if_neg hempty] at ht
      exact validateTransitions_window _ _ _ _ _ ht
  · intro t ht
    rw [calendarDetectTransitions] at ht
    by_cases hempty : csignals = []
    · simp [hempty] at ht
    · rw [if_neg hempty] at ht
      have h := (List.mem_filter.mp ht).2
      simp only [Bool.and_eq_true, decide_eq_true_eq] at h
      exact ⟨h.1.2, h.2⟩

/-- C3 amended witness: concrete in-window outputs of the PELT and
calendar detectors. -/
theorem windowed_detectors_stay_in_window_witness :
    ((0 : ℚ) ≤ (dataGapTransition 0).transitionTime ∧
      (dataGapTransition 0).transitionTime ≤ 1000) ∧
    ((0 : ℚ) ≤ tentativeStartTransition.transitionTime ∧
      tentativeStartTransition.transitionTime ≤ 10000) := by
  constructor
  · exact (windowed_detectors_stay_in_window peltDefaults predictNone extractZero
      gapSignals [] (95/100) 0 1000).1 (dataGapTransition 0)
      (by rw [peltDetect_gap_inside_eval]; exact List.mem_cons_self _ _)
  · exact (windowed_detectors_stay_in_window peltDefaults predictNone extractZero
      gapSignals [tentativeCalSig] (95/100) 0 10000).2 tentativeStartTransition
      (by rw [calendarDetect_tentative_eval]; exact List.mem_cons_self _ _)

/-- Boundaries at 0, 6000 and 6180 s into the day: the final edge segment
(3 min) is dropped, so the stored rows stop at 6000. -/
theorem emitSegments_dropped_edge_eval :
    emitSegments [⟨0, 1/2⟩, ⟨6000, 1/2⟩, ⟨6180, 1/2⟩] 0 86399 =
      [{ clusterId := 0, startTime := 0, endTime := 6000, coreDensity := 1/2 }] := by
  have hab : allBoundaries [⟨0, 1/2⟩, ⟨6000, 1/2⟩, ⟨6180, 1/2⟩] 0 86399 =
      [⟨0, 1/2⟩, ⟨6000, 1/2⟩, ⟨6180, 1/2⟩] := by
    rw [allBoundaries, if_neg (by simp)]
    norm_num [firstBTime, lastBTime, synthBoundary]
  rw [emitSegments, hab]
  norm_num [mkSegments, mkSegmentsFrom, keepSegment, segmentRow, List.filter]

/-- C2 counterexample: after the 3-minute edge segment `[6000, 6180]` is
dropped, the stored segments end at 6000 although the data extends to 6180
— an uncovered span of 180 s > 60 s — and the single stored row has
`cluster_id` 0: no "unknown" filler segment with `cluster_id = -1` is
stored. -/
theorem emitSegments_gap_left_unfilled :
    emitSegments [⟨0, 1/2⟩, ⟨6000, 1/2⟩, ⟨6180, 1/2⟩] 0 86399 =
      [{ clusterId := 0, startTime := 0, endTime := 6000, coreDensity := 1/2 }] ∧
    ((6180 : ℚ) - 6000 > 60) ∧ (0 : ℤ) ≠ -1 := by
  refine ⟨emitSegments_dropped_edge_eval, by norm_num, by norm_num⟩

/-- Boundaries at 0, 3600, 3600 (two noise transitions at the same
instant become two singleton boundaries with one timestamp) and 7200. -/
theorem emitSegments_equal_timestamps_eval :
    emitSegments [⟨0, 1/2⟩, ⟨3600, 1/2⟩, ⟨3600, 3/5⟩, ⟨7200, 1/2⟩] 0 86399 =
      [{ clusterId := 0, startTime := 0, endTime := 3600, coreDensity := 1/2 },
       { clusterId := 1, startTime := 3600, endTime := 3600, coreDensity := 1/2 },
       { clusterId := 2, startTime := 3600, endTime := 7200, coreDensity := 3/5 }] := by
  have hab : allBoundaries [⟨0, 1/2⟩, ⟨3600, 1/2⟩, ⟨3600, 3/5⟩, ⟨7200, 1/2⟩] 0 86399 =
      [⟨0, 1/2⟩, ⟨3600, 1/2⟩, ⟨3600, 3/5⟩, ⟨7200, 1/2⟩] := by
    rw [allBoundaries, if_neg (by simp)]
    norm_num [firstBTime, lastBTime, synthBoundary]
  rw [emitSegments, hab]
  norm_num [mkSegments, mkSegmentsFrom, keepSegment, segmentRow, List.filter]

/-- C9 counterexample: two boundaries carrying equal timestamps produce a
persisted interior segment with `end_time = start_time` (3600 = 3600), so
`end_time > start_time` fails for a stored row. -/
theorem emitSegments_zero_length_row :
    emitSegments [⟨0, 1/2⟩, ⟨3600, 1/2⟩, ⟨3600, 3/5⟩, ⟨7200, 1/2⟩] 0 86399 =
      [{ clusterId := 0, startTime := 0, endTime := 3600, coreDensity := 1/2 },
       { clusterId := 1, startTime := 3600, endTime := 3600, coreDensity := 1/2 },
       { clusterId := 2, startTime := 3600, endTime := 7200, coreDensity := 3/5 }] ∧
    ¬((3600 : ℚ) < 3600) := by
  refine ⟨emitSegments_equal_timestamps_eval, by norm_num⟩

/-- The consecutive-pair segments tile the boundary list: each segment
ends exactly where the next one starts. -/
theorem mkSegmentsFrom_chain_eq (n : Nat) :
    ∀ (l : List Boundary) (i : Nat),
      List.Chain' (fun s t => s.endTime = t.startTime) (mkSegmentsFrom n i l)
  | [], _ => by simp [mkSegmentsFrom]
  | [b], _ => by simp [mkSegmentsFrom]
  | b1 :: b2 :: rest, i => by
    rw [mkSegmentsFrom, List.chain'_cons']
    refine ⟨?_, mkSegmentsFrom_chain_eq n (b2 :: rest) (i + 1)⟩
    intro s hs
    cases rest with
    | nil => simp [mkSegmentsFrom] at hs
    | cons b3 tl =>
      rw [mkSegmentsFrom] at hs
      simp only [List.head?_cons, Option.mem_def, Option.some_inj] at hs
      rw [← hs]

/-- On a chain-sorted boundary list, every built segment has
`startTime ≤ endTime`, and all its endpoints are bounded by any bounds on
the boundary timestamps. -/
theorem mkSegmentsFrom_mem_facts (n : Nat) (lo hi : ℚ) :
    ∀ (l : List Boundary) (i : Nat),
      List.Chain' (fun a b => a.timestamp ≤ b.timestamp) l →
      (∀ b ∈ l, lo ≤ b.timestamp ∧ b.timestamp ≤ hi) →
      ∀ s ∈ mkSegmentsFrom n i l,
        s.startTime ≤ s.endTime ∧ lo ≤ s.startTime ∧ s.endTime ≤ hi
  | [], _, _, _ => by simp [mkSegmentsFrom]
  | [b], _, _, _ => by simp [mkSegmentsFrom]
  | b1 :: b2 :: rest, i, hch, hbd => by
    intro s hs
    rw [mkSegmentsFrom] at hs
    rcases List.mem_cons.mp hs with h | h
    · subst h
      refine ⟨List.chain'_cons.mp hch |>.1, ?_, ?_⟩
      · exact (hbd b1 (List.mem_cons_self _ _)).1
      · exact (hbd b2 (List.mem_cons_of_mem _ (List.mem_cons_self _ _))).2
    · exact mkSegmentsFrom_mem_facts n lo hi (b2 :: rest) (i + 1)
        (List.chain'_cons.mp hch).2
        (fun b hb => hbd b (List.mem_cons_of_mem _ hb)) s h

/-- Interleaving a chain with a property of its members. -/
theorem chain'_with_mem {α : Type} {R : α → α → Prop} {P : α → Prop} :
    ∀ {l : List α}, List.Chain' R l → (∀ x ∈ l, P x) →
      List.Chain' (fun a b => P a ∧ R a b ∧ P b) l
  | [], _, _ => List.chain'_nil
  | [_], _, _ => List.chain'_singleton _
  | a :: b :: l, hch, hm => by
    rw [List.chain'_cons] at hch
    rw [List.chain'_cons]
    exact ⟨⟨hm a (List.mem_cons_self _ _),
      hch.1, hm b (List.mem_cons_of_mem _ (List.mem_cons_self _ _))⟩,
      chain'_with_mem hch.2 (fun x hx => hm x (List.mem_cons_of_mem _ hx))⟩

/-- Every timestamp of `all_boundaries` stays within
`[start_of_day, end_of_day]` when the input boundaries do. -/
theorem allBoundaries_bounds (boundaries : List Boundary) (startOfDay endOfDay : ℚ)
    (hin : ∀ b ∈ boundaries, startOfDay ≤ b.timestamp ∧ b.timestamp ≤ endOfDay)
    (hse : startOfDay ≤ endOfDay) :
    ∀ b ∈ allBoundaries boundaries startOfDay endOfDay,
      startOfDay ≤ b.timestamp ∧ b.timestamp ≤ endOfDay := by
  intro b hb
  rw [allBoundaries] at hb
  by_cases hempty : boundaries = []
  · rw [if_pos hempty] at hb
    simp only [List.mem_cons, List.not_mem_nil, or_false] at hb
    rcases hb with h | h
    · subst h
      exact ⟨le_refl _, hse⟩
    · subst h
      exact ⟨hse, le_refl _⟩
  · rw [if_neg hempty] at hb
    simp only [List.mem_append] at hb
    rcases hb with (h | h) | h
    · split at h
      · simp only [List.mem_singleton] at h
        subst h
        exact ⟨le_refl _, hse⟩
      · simp at h
    · exact hin b h
    · split at h
      · simp only [List.mem_singleton] at h
        subst h
        exact ⟨hse, le_refl _⟩
      · simp at h

/-- `all_boundaries` is sorted when the input boundaries are sorted and lie
within the day window. -/
theorem allBoundaries_sorted (boundaries : List Boundary) (startOfDay endOfDay : ℚ)
    (hsorted : List.Pairwise (fun a b => a.timestamp ≤ b.timestamp) boundaries)
    (hin : ∀ b ∈ boundaries, startOfDay ≤ b.timestamp ∧ b.timestamp ≤ endOfDay)
    (hse : startOfDay ≤ endOfDay) :
    List.Pairwise (fun a b => a.timestamp ≤ b.timestamp)
      (allBoundaries boundaries startOfDay endOfDay) := by
  rw [allBoundaries]
  by_cases hempty : boundaries = []
  · rw [if_pos hempty]
    exact List.pairwise_cons.mpr ⟨by simpa [synthBoundary] using hse, by simp⟩
  · rw [if_neg hempty]
    have h0 : ∀ b ∈ boundaries, startOfDay ≤ b.timestamp := fun b hb => (hin b hb).1
    have h1 : ∀ b ∈ boundaries, b.timestamp ≤ endOfDay := fun b hb => (hin b hb).2
    have hpreSorted : List.Pairwise (fun a b => a.timestamp ≤ b.timestamp)
        (synthBoundary startOfDay :: boundaries) :=
      List.pairwise_cons.mpr ⟨fun b hb => h0 b hb, hsorted⟩
    have hallE : ∀ a ∈ synthBoundary startOfDay :: boundaries,
        a.timestamp ≤ (synthBoundary endOfDay).timestamp := by
      intro a ha
      rcases List.mem_cons.mp ha with h | h
      · subst h
        exact hse
      · exact h1 a h
    split
    · rw [List.singleton_append]
      split
      · rw [List.pairwise_append]
        exact ⟨hpreSorted, List.pairwise_singleton _ _,
          fun a ha c hc => by
            rw [List.mem_singleton] at hc
            subst hc
            exact hallE a ha⟩
      · rw [List.append_nil]
        exact hpreSorted
    · rw [List.nil_append]
      split
      · rw [List.pairwise_append]
        exact ⟨hsorted, List.pairwise_singleton _ _,
          fun a ha c hc => by
            rw [List.mem_singleton] at hc
            subst hc
            exact h1 a ha⟩
      · rw [List.append_nil]
        exact hsorted

/-- C2 amended: the segmenter stores no "unknown" filler — every stored
row's `cluster_id` is a nonnegative segment index, the built segments tile
`[first_boundary, last_boundary]` with each segment ending exactly where
the next starts (so interior gaps between consecutive stored segments
cannot arise), and every non-edge segment is stored; only edge segments
(shorter than 5 minutes) are ever dropped, leaving those edge spans
uncovered with nothing filling them. -/
theorem emitSegments_no_unknown_filler (boundaries : List Boundary)
    (startOfDay endOfDay : ℚ) :
    (∀ e ∈ emitSegments boundaries startOfDay endOfDay, 0 ≤ e.clusterId ∧ e.clusterId ≠ -1) ∧
    List.Chain' (fun s t => s.endTime = t.startTime)
      (mkSegments (allBoundaries boundaries startOfDay endOfDay)) ∧
    (∀ s ∈ mkSegments (allBoundaries boundaries startOfDay endOfDay),
      s.isEdgeSegment = false →
        segmentRow s ∈ emitSegments boundaries startOfDay endOfDay) := by
  refine ⟨?_, mkSegmentsFrom_chain_eq _ _ _, ?_⟩
  · intro e he
    rw [emitSegments] at he
    obtain ⟨s, _, hrow⟩ := List.mem_map.mp he
    have hcl : e.clusterId = (s.segmentIndex : ℤ) := by
      rw [← hrow]
      rfl
    rw [hcl]
    constructor
    · exact Int.natCast_nonneg _
    · intro hneg
      omega
  · intro s hs hedge
    rw [emitSegments]
    refine List.mem_map.mpr ⟨s, List.mem_filter.mpr ⟨hs, ?_⟩, rfl⟩
    rw [keepSegment, hedge]
    simp

/-- C2 amended witness: the concrete dropped-edge boundaries. -/
theorem emitSegments_no_unknown_filler_witness :
    ((0 : ℤ) ≤ ((⟨0, 0, 6000, 1/2⟩ : EventRow)).clusterId) ∧
    List.Chain' (fun s t => s.endTime = t.startTime)
      (mkSegments (allBoundaries [⟨0, 1/2⟩, ⟨6000, 1/2⟩, ⟨6180, 1/2⟩] 0 86399)) := by
  have h := emitSegments_no_unknown_filler [⟨0, 1/2⟩, ⟨6000, 1/2⟩, ⟨6180, 1/2⟩] 0 86399
  refine ⟨?_, h.2.1⟩
  exact (h.1 _ (by rw [emitSegments_dropped_edge_eval]; exact List.mem_cons_self _ _)).1

/-- C9 amended: the rows the segmenter persists are chain-sorted and
pairwise non-overlapping (each row ends at or before the next begins),
every row satisfies `start_time ≤ end_time` — with equality possible when
two boundaries carry equal timestamps — and rows stay inside the local
day, so the last `end_time` is at most the local end of day. -/
theorem emitSegments_sorted_nonoverlap (boundaries : List Boundary)
    (startOfDay endOfDay : ℚ)
    (hsorted : List.Pairwise (fun a b => a.timestamp ≤ b.timestamp) boundaries)
    (hin : ∀ b ∈ boundaries, startOfDay ≤ b.timestamp ∧ b.timestamp ≤ endOfDay)
    (hse : startOfDay ≤ endOfDay) :
    List.Chain' (fun e f => e.endTime ≤ f.startTime)
      (emitSegments boundaries startOfDay endOfDay) ∧
    (∀ e ∈ emitSegments boundaries startOfDay endOfDay, e.startTime ≤ e.endTime) ∧
    (∀ e ∈ emitSegments boundaries startOfDay endOfDay,
      startOfDay ≤ e.startTime ∧ e.endTime ≤ endOfDay) := by
  have hch : List.Chain' (fun a b => a.timestamp ≤ b.timestamp)
      (allBoundaries boundaries startOfDay endOfDay) :=
    (allBoundaries_sorted boundaries startOfDay endOfDay hsorted hin hse).chain'
  have hbd := allBoundaries_bounds boundaries startOfDay endOfDay hin hse
  have hfacts := mkSegmentsFrom_mem_facts
    (allBoundaries boundaries startOfDay endOfDay).length startOfDay endOfDay
    (allBoundaries boundaries startOfDay endOfDay) 0 hch hbd
  have hmemrow : ∀ e ∈ emitSegments boundaries startOfDay endOfDay,
      ∃ s ∈ mkSegments (allBoundaries boundaries startOfDay endOfDay),
        segmentRow s = e := by
    intro e he
    rw [emitSegments] at he
    obtain ⟨s, hsf, hrow⟩ := List.mem_map.mp he
    exact ⟨s, (List.mem_filter.mp hsf).1, hrow⟩
  refine ⟨?_, ?_, ?_⟩
  · have hRp : List.Chain'
        (fun s t : SegmentInfo => (s.startTime ≤ s.endTime) ∧
          s.endTime = t.startTime ∧ (t.startTime ≤ t.endTime))
        (mkSegments (allBoundaries boundaries startOfDay endOfDay)) := by
      have := chain'_with_mem (mkSegmentsFrom_chain_eq
        (allBoundaries boundaries startOfDay endOfDay).length
        (allBoundaries boundaries startOfDay endOfDay) 0)
        (fun s hs => (hfacts s hs).1)
      exact this.imp (fun a b h => ⟨h.1, h.2.1, h.2.2⟩)
    haveI : IsTrans SegmentInfo
        (fun s t => (s.startTime ≤ s.endTime) ∧
          s.endTime ≤ t.startTime ∧ (t.startTime ≤ t.endTime)) :=
      ⟨fun a b c hab hbc =>
        ⟨hab.1, le_trans hab.2.1 (le_trans hbc.1 hbc.2.1), hbc.2.2⟩⟩
    have hRle : List.Chain'
        (fun s t : SegmentInfo => (s.startTime ≤ s.endTime) ∧
          s.endTime ≤ t.startTime ∧ (t.startTime ≤ t.endTime))
        ((mkSegments (allBoundaries boundaries startOfDay endOfDay)).filter
          keepSegment) :=
      List.Chain'.sublist
        (hRp.imp (fun a b h => ⟨h.1, le_of_eq h.2.1, h.2.2⟩))
        (List.filter_sublist _)
    rw [emitSegments, List.chain'_map]
    exact hRle.imp (fun a b h => h.2.1)
  · intro e he
    obtain ⟨s, hs, hrow⟩ := hmemrow e he
    rw [← hrow]
    exact (hfacts s hs).1
  · intro e he
    obtain ⟨s, hs, hrow⟩ := hmemrow e he
    rw [← hrow]
    exact ⟨(hfacts s hs).2.1, (hfacts s hs).2.2⟩

/-- C9 amended witness: the dropped-edge boundaries within the day
`[0, 86399]`. -/
theorem emitSegments_sorted_nonoverlap_witness :
    List.Chain' (fun e f => e.endTime ≤ f.startTime)
      (emitSegments [⟨0, 1/2⟩, ⟨6000, 1/2⟩, ⟨6180, 1/2⟩] 0 86399) ∧
    (∀ e ∈ emitSegments [⟨0, 1/2⟩, ⟨6000, 1/2⟩, ⟨6180, 1/2⟩] 0 86399,
      e.startTime ≤ e.endTime) ∧
    (∀ e ∈ emitSegments [⟨0, 1/2⟩, ⟨6000, 1/2⟩, ⟨6180, 1/2⟩] 0 86399,
      (0 : ℚ) ≤ e.startTime ∧ e.endTime ≤ 86399) :=
  emitSegments_sorted_nonoverlap [⟨0, 1/2⟩, ⟨6000, 1/2⟩, ⟨6180, 1/2⟩] 0 86399
    (by norm_num) (by norm_num) (by norm_num)

/-! ### Structure of the chunked lists (collection periods / merge groups) -/

/-- The first chunk starts with the seed element. -/
theorem chunkBy_head {α : Type} (nc : α → α → Bool) (a : α) :
    ∀ l : List α, (chunkBy nc a l).1.head? = some a
  | [] => rfl
  | b :: rest => by
    simp only [chunkBy]
    split
    · rfl
    · rfl

/-- The first chunk is nonempty. -/
theorem chunkBy_first_ne_nil {α : Type} (nc : α → α → Bool) (a : α) (l : List α) :
    (chunkBy nc a l).1 ≠ [] := by
  intro h
  have := chunkBy_head nc a l
  rw [h] at this
  cases this

/-- Dropping the head of a nonempty-tailed cons keeps the last element. -/
theorem getLast?_cons_ne_nil {α : Type} (x : α) {c : List α} (hc : c ≠ []) :
    (x :: c).getLast? = c.getLast? := by
  cases c with
  | nil => exact absurd rfl hc
  | cons h t => exact List.getLast?_cons_cons

/-- The chunks concatenate back to the input. -/
theorem chunkBy_join {α : Type} (nc : α → α → Bool) (a : α) :
    ∀ l : List α, (chunkBy nc a l).1 ++ ((chunkBy nc a l).2).flatten = a :: l
  | [] => by simp [chunkBy]
  | b :: rest => by
    have ih := chunkBy_join nc b rest
    simp only [chunkBy]
    split
    · simpa using ih
    · simpa using ih

/-- `chunksBy` concatenates back to the input. -/
theorem chunksBy_join {α : Type} (nc : α → α → Bool) :
    ∀ l : List α, ((chunksBy nc l)).flatten = l
  | [] => rfl
  | a :: rest => by
    simp only [chunksBy, List.flatten_cons]
    exact chunkBy_join nc a rest

/-- Every chunk is nonempty. -/
theorem chunkBy_chunks_ne_nil {α : Type} (nc : α → α → Bool) (a : α) :
    ∀ l : List α, ∀ c ∈ (chunkBy nc a l).1 :: (chunkBy nc a l).2, c ≠ []
  | [] => by
    intro c hc
    simp only [chunkBy, List.mem_cons, List.not_mem_nil, or_false] at hc
    subst hc
    simp
  | b :: rest => by
    intro c hc
    have ih := chunkBy_chunks_ne_nil nc b rest
    simp only [chunkBy] at hc
    split at hc
    · rcases List.mem_cons.mp hc with h | h
      · subst h
        simp
      · exact ih c h
    · rcases List.mem_cons.mp hc with h | h
      · subst h
        simp
      · exact ih c (List.mem_cons_of_mem _ h)

/-- Every chunk of `chunksBy` is nonempty. -/
theorem chunksBy_ne_nil {α : Type} (nc : α → α → Bool) :
    ∀ l : List α, ∀ c ∈ chunksBy nc l, c ≠ []
  | [] => by simp [chunksBy]
  | a :: rest => by
    intro c hc
    exact chunkBy_chunks_ne_nil nc a rest c hc

/-- Within a chunk no split condition holds between consecutive
elements. -/
theorem chunkBy_internal {α : Type} (nc : α → α → Bool) :
    ∀ (l : List α) (a : α),
      ∀ c ∈ (chunkBy nc a l).1 :: (chunkBy nc a l).2,
        List.Chain' (fun x y => nc x y = false) c
  | [], a => by
    intro c hc
    simp only [chunkBy, List.mem_cons, List.not_mem_nil, or_false] at hc
    subst hc
    simp
  | b :: rest, a => by
    intro c hc
    have ih := chunkBy_internal nc rest b
    simp only [chunkBy] at hc
    split at hc
    · rcases List.mem_cons.mp hc with h | h
      · subst h
        simp
      · exact ih c h
    · rcases List.mem_cons.mp hc with h | h
      · subst h
        rw [List.chain'_cons']
        refine ⟨?_, ih _ (List.mem_cons_self _ _)⟩
        intro y hy
        rw [chunkBy_head nc b rest] at hy
        cases hy
        simpa using ‹¬nc a b = true›
      · exact ih c (List.mem_cons_of_mem _ h)

/-- Between consecutive chunks, the split condition holds from the last
element of one to the first of the next. -/
theorem chunkBy_junction {α : Type} (nc : α → α → Bool) :
    ∀ (l : List α) (a : α),
      List.Chain' (fun c c' => ∀ z ∈ c.getLast?, ∀ y ∈ c'.head?, nc z y = true)
        ((chunkBy nc a l).1 :: (chunkBy nc a l).2)
  | [], a => by simp [chunkBy]
  | b :: rest, a => by
    have ih := chunkBy_junction nc rest b
    simp only [chunkBy]
    split
    · rw [List.chain'_cons']
      refine ⟨?_, ih⟩
      intro c' hc' z hz y hy
      simp only [List.head?_cons, Option.mem_def, Option.some_inj] at hc'
      subst hc'
      simp only [List.getLast?_singleton, Option.mem_def, Option.some_inj] at hz
      subst hz
      rw [chunkBy_head nc b rest] at hy
      cases hy
      assumption
    · rw [List.chain'_cons'] at ih ⊢
      simp only [getLast?_cons_ne_nil a (chunkBy_first_ne_nil nc b rest)]
      exact ih

/-- Every chunk is a sublist of the chunked list. -/
theorem chunkBy_sublist {α : Type} (nc : α → α → Bool) :
    ∀ (l : List α) (a : α), ∀ c ∈ (chunkBy nc a l).1 :: (chunkBy nc a l).2,
      c.Sublist (a :: l) := by
  intro l a c hc
  have hjoin := chunkBy_join nc a l
  rcases List.mem_cons.mp hc with h | h
  · subst h
    rw [← hjoin]
    exact (List.sublist_append_left _ _)
  · rw [← hjoin]
    exact List.Sublist.trans (List.sublist_flatten_of_mem h) (List.sublist_append_right _ _)

/-- Every chunk of `chunksBy` is a sublist of the input. -/
theorem chunksBy_sublist {α : Type} (nc : α → α → Bool) :
    ∀ (l : List α), ∀ c ∈ chunksBy nc l, c.Sublist l
  | [] => by simp [chunksBy]
  | a :: rest => fun c hc => chunkBy_sublist nc rest a c hc

/-- Locating a split pair inside the walked tail: when the split condition
holds between an adjacent pair `(a, b)`, `a` ends a non-final chunk. -/
theorem chunkBy_locate {α : Type} (nc : α → α → Bool) :
    ∀ (l₁ : List α) (x : α) (l₂ : List α) (a b : α) (rest : List α),
      rest = l₁ ++ a :: b :: l₂ → nc a b = true →
      ∃ cs1 c cs2, (chunkBy nc x rest).1 :: (chunkBy nc x rest).2 = cs1 ++ c :: cs2 ∧
        c.getLast? = some a ∧ cs2 ≠ []
  | [], x, l₂, a, b, rest => by
    intro hrest hnc
    subst hrest
    rw [List.nil_append]
    have hr : chunkBy nc a (b :: l₂) =
        ([a], (chunkBy nc b l₂).1 :: (chunkBy nc b l₂).2) := by
      simp only [chunkBy, if_pos hnc]
    simp only [chunkBy, hr]
    split
    · exact ⟨[[x]], [a], (chunkBy nc b l₂).1 :: (chunkBy nc b l₂).2, rfl, rfl, by simp⟩
    · refine ⟨[], [x, a], (chunkBy nc b l₂).1 :: (chunkBy nc b l₂).2, rfl, ?_, by simp⟩
      rfl
  | w :: l₁', x, l₂, a, b, rest => by
    intro hrest hnc
    subst hrest
    rw [List.cons_append]
    obtain ⟨cs1, c, cs2, heq, hlast, hne⟩ :=
      chunkBy_locate nc l₁' w l₂ a b (l₁' ++ a :: b :: l₂) rfl hnc
    simp only [chunkBy]
    split
    · exact ⟨[x] :: cs1, c, cs2, by rw [List.cons_append, ← heq], hlast, hne⟩
    · cases cs1 with
      | nil =>
        have h1 : (chunkBy nc w (l₁' ++ a :: b :: l₂)).1 = c := by
          have := congrArg List.head? heq
          simpa using (List.cons_eq_cons.mp heq).1
        have h2 : (chunkBy nc w (l₁' ++ a :: b :: l₂)).2 = cs2 :=
          (List.cons_eq_cons.mp heq).2
        refine ⟨[], x :: c, cs2, by rw [h1, h2]; rfl, ?_, hne⟩
        rw [getLast?_cons_ne_nil x (h1 ▸ chunkBy_first_ne_nil nc w _)]
        exact hlast
      | cons c1 cs1' =>
        have h1 : (chunkBy nc w (l₁' ++ a :: b :: l₂)).1 = c1 :=
          (List.cons_eq_cons.mp heq).1
        have h2 : (chunkBy nc w (l₁' ++ a :: b :: l₂)).2 = cs1' ++ c :: cs2 :=
          (List.cons_eq_cons.mp heq).2
        exact ⟨(x :: c1) :: cs1', c, cs2, by rw [h1, h2, List.cons_append], hlast, hne⟩

/-- `chunksBy` version of the split-pair location. -/
theorem chunksBy_locate {α : Type} (nc : α → α → Bool) (l l₁ l₂ : List α) (a b : α)
    (h : l = l₁ ++ a :: b :: l₂) (hnc : nc a b = true) :
    ∃ cs1 c cs2, chunksBy nc l = cs1 ++ c :: cs2 ∧ c.getLast? = some a ∧ cs2 ≠ [] := by
  cases l with
  | nil =>
    cases l₁ <;> simp at h
  | cons x rest =>
    cases l₁ with
    | nil =>
      simp only [List.nil_append, List.cons_eq_cons] at h
      obtain ⟨hx, hrest⟩ := h
      subst hx
      subst hrest
      have hr : chunkBy nc x (b :: l₂) =
          ([x], (chunkBy nc b l₂).1 :: (chunkBy nc b l₂).2) := by
        simp only [chunkBy, if_pos hnc]
      rw [chunksBy, hr]
      exact ⟨[], [x], (chunkBy nc b l₂).1 :: (chunkBy nc b l₂).2, rfl, rfl, by simp⟩
    | cons y l₁' =>
      simp only [List.cons_append, List.cons_eq_cons] at h
      obtain ⟨hx, hrest⟩ := h
      subst hx
      subst hrest
      rw [chunksBy]
      exact chunkBy_locate nc l₁' x l₂ a b _ rfl hnc

/-- The clamped changepoint confidence never exceeds 0.95 when the
configured floor does not. -/
theorem calcChangepointConfidence_le (minC : ℚ) (bv av : List ℚ)
    (hmc : minC ≤ 95/100) :
    calcChangepointConfidence minC bv av ≤ 95/100 := by
  simp only [calcChangepointConfidence]
  split
  · norm_num
  · rw [max_le_iff]
    refine ⟨hmc, ?_⟩
    rw [min_le_iff]
    right
    split_ifs <;> norm_num

/-- The middle index of every boundary triple lies strictly inside the
walked list. -/
theorem cpTriples_middle_mem : ∀ (x : ℕ) (l : List ℕ),
    ∀ t ∈ cpTriples (x :: l), t.2.1 ∈ l.dropLast
  | _, [] => by simp [cpTriples]
  | _, [_] => by simp [cpTriples]
  | x, y :: z :: rest => by
    intro t ht
    rw [cpTriples] at ht
    rcases List.mem_cons.mp ht with h | h
    · subst h
      rw [List.dropLast_cons₂]
      exact List.mem_cons_self _ _
    · rw [List.dropLast_cons₂]
      exact List.mem_cons_of_mem _ (cpTriples_middle_mem y (z :: rest) t h)

/-- A chain on a list induces the corresponding chain on the middle
components of its consecutive triples. -/
theorem cpTriples_chain (R : ℕ → ℕ → Prop) : ∀ l : List ℕ, List.Chain' R l →
    List.Chain' (fun t u : ℕ × ℕ × ℕ => R t.2.1 u.2.1) (cpTriples l)
  | [] => by simp [cpTriples]
  | [_] => by simp [cpTriples]
  | [_, _] => by simp [cpTriples]
  | a :: b :: c :: rest => by
    intro h
    rw [cpTriples, List.chain'_cons']
    constructor
    · intro u hu
      cases rest with
      | nil => simp [cpTriples] at hu
      | cons d rest' =>
        rw [cpTriples] at hu
        simp only [List.head?_cons, Option.mem_def, Option.some_inj] at hu
        subst hu
        exact (List.chain'_cons.mp (List.chain'_cons.mp h).2).1
    · exact cpTriples_chain R (b :: c :: rest) (List.chain'_cons.mp h).2

/-- Two chains on the same list combine pointwise. -/
theorem chain'_conj {α : Type} {R S : α → α → Prop} :
    ∀ {l : List α}, List.Chain' R l → List.Chain' S l →
      List.Chain' (fun a b => R a b ∧ S a b) l
  | [], _, _ => List.chain'_nil
  | [_], _, _ => List.chain'_singleton _
  | _ :: _ :: _, hr, hs => by
    rw [List.chain'_cons] at hr hs
    rw [List.chain'_cons]
    exact ⟨⟨hr.1, hs.1⟩, chain'_conj hr.2 hs.2⟩

/-- A chain whose relation constrains its left endpoint yields that
constraint on every element except the last. -/
theorem chain'_dropLast_prop {α : Type} {R : α → α → Prop} {Q : α → Prop}
    (hRQ : ∀ x y, R x y → Q x) :
    ∀ l : List α, List.Chain' R l → ∀ x ∈ l.dropLast, Q x
  | [] => by simp
  | [_] => by simp
  | a :: b :: t => by
    intro h x hx
    rw [List.dropLast_cons₂] at hx
    rw [List.chain'_cons] at h
    rcases List.mem_cons.mp hx with hx | hx
    · subst hx
      exact hRQ x b h.1
    · exact chain'_dropLast_prop hRQ (b :: t) h.2 x hx

/-- A relation that only constrains its left argument holds pairwise once
every member satisfies the constraint. -/
theorem pairwise_of_mem_imp {α : Type} {R : α → α → Prop} {Q : α → Prop} :
    ∀ {l : List α}, (∀ x ∈ l, Q x) → (∀ x y, Q x → R x y) → List.Pairwise R l
  | [], _, _ => List.Pairwise.nil
  | a :: _, h1, h2 => by
    rw [List.pairwise_cons]
    exact ⟨fun y _ => h2 a y (h1 a (List.mem_cons_self _ _)),
      pairwise_of_mem_imp (fun x hx => h1 x (List.mem_cons_of_mem _ hx)) h2⟩

/-- Under the `ruptures` breakpoint contract, the interior changepoints
kept by `_convert_changepoints_to_transitions` are strictly between `0`
and the number of values. -/
theorem cps_bounds (changePoints : List ℕ) (n : ℕ)
    (hchain : List.Chain' (· < ·) changePoints)
    (hbnd : ∀ k ∈ changePoints, 0 < k ∧ k ≤ n) :
    ∀ m ∈ (if changePoints = [] ∨ changePoints.getLast? = some n
      then changePoints.dropLast else changePoints), 0 < m ∧ m < n := by
  intro m hm
  have hpw : List.Pairwise (· < ·) changePoints := by
    haveI : IsTrans ℕ (· < ·) := ⟨fun a b c => Nat.lt_trans⟩
    exact List.chain'_iff_pairwise.mp hchain
  split at hm
  case isTrue hcase =>
    have hcne : changePoints ≠ [] := by
      intro h
      rw [h] at hm
      simp at hm
    have hlast : changePoints.getLast? = some n := by
      rcases hcase with h | h
      · exact absurd h hcne
      · exact h
    have hml : m ∈ changePoints := (List.dropLast_sublist _).subset hm
    refine ⟨(hbnd m hml).1, ?_⟩
    have hgl : changePoints.getLast hcne = n := by
      have h1 := List.getLast?_eq_getLast changePoints hcne
      rw [hlast] at h1
      exact (Option.some_inj.mp h1).symm
    have hsplit2 := List.dropLast_append_getLast hcne
    rw [← hsplit2, List.pairwise_append] at hpw
    have h2 := hpw.2.2 m hm (changePoints.getLast hcne) (by simp)
    omega
  case isFalse hcase =>
    push_neg at hcase
    obtain ⟨hcne, hlastne⟩ := hcase
    refine ⟨(hbnd m hm).1, ?_⟩
    have hle := (hbnd m hm).2
    rcases Nat.lt_or_ge m n with h | h
    · exact h
    · exfalso
      have hmn : m = n := Nat.le_antisymm hle h
      subst hmn
      have hsplit2 := List.dropLast_append_getLast hcne
      rw [← hsplit2, List.mem_append] at hm
      rcases hm with hm | hm
      · rw [← hsplit2, List.pairwise_append] at hpw
        have h2 := hpw.2.2 m hm (changePoints.getLast hcne) (by simp)
        have h3 := (hbnd _ (List.getLast_mem hcne)).2
        omega
      · rw [List.mem_singleton] at hm
        refine hlastne ?_
        rw [List.getLast?_eq_getLast changePoints hcne, hm]

/-- In a sorted signal list, every indexed timestamp lies between the
period start and the period end. -/
theorem sorted_getD_bounds (psigs : List SigRec)
    (hsorted : List.Pairwise (fun x y => x.timestamp ≤ y.timestamp) psigs)
    (m : ℕ) (hm : m < psigs.length) :
    periodStartTime psigs ≤ (psigs.getD m defaultSigRec).timestamp ∧
      (psigs.getD m defaultSigRec).timestamp ≤ periodEndTime psigs := by
  have hne : psigs ≠ [] := by
    intro h
    rw [h] at hm
    simp at hm
  have hpw := List.pairwise_iff_getElem.mp hsorted
  rw [List.getD_eq_getElem psigs defaultSigRec hm]
  have h0 : 0 < psigs.length := List.length_pos.mpr hne
  have hstart : periodStartTime psigs = psigs[0].timestamp := by
    rw [periodStartTime, List.head?_eq_head hne, List.head_eq_getElem]
    rfl
  have hend : periodEndTime psigs = psigs[psigs.length - 1].timestamp := by
    rw [periodEndTime, List.getLast?_eq_getLast psigs hne, List.getLast_eq_getElem]
    rfl
  constructor
  · rw [hstart]
    rcases Nat.eq_zero_or_pos m with hm0 | hm0
    · subst hm0
      exact le_refl _
    · exact hpw 0 m h0 hm hm0
  · rw [hend]
    rcases Nat.lt_or_ge m (psigs.length - 1) with hlt | hge
    · exact hpw m (psigs.length - 1) hm (by omega) hlt
    · have hmn : m = psigs.length - 1 := by omega
      subst hmn
      exact le_refl _

/-- A nonempty sorted collection period starts no later than it ends. -/
theorem period_start_le_end (q : List SigRec) (hne : q ≠ [])
    (hsorted : List.Pairwise (fun x y => x.timestamp ≤ y.timestamp) q) :
    periodStartTime q ≤ periodEndTime q := by
  have h0 : 0 < q.length := List.length_pos.mpr hne
  have h := sorted_getD_bounds q hsorted 0 h0
  exact le_trans h.1 h.2

/-- Every transition of a per-period PELT run is a changepoint. -/
theorem peltRun_type (cfg : PeltConfig) (predict : List ℚ → List ℕ)
    (extract : List SigRec → List ℚ) (q : List SigRec) :
    ∀ x ∈ peltRunTransitions cfg predict extract q,
      x.transitionType = "changepoint" := by
  intro x hx
  simp only [peltRunTransitions] at hx
  split at hx
  · split at hx
    · simp at hx
    · simp only [convertChangepoints] at hx
      split at hx <;> split at hx <;>
        simp only [List.mem_map, List.not_mem_nil] at hx <;>
        obtain ⟨t, _, rfl⟩ := hx <;> rfl
  · simp at hx

/-- Under the `ruptures` breakpoint contract, every transition built by
the changepoint conversion is a changepoint bounded by 0.95 confidence
(when the floor is) and timed inside the period, and the produced list is
sorted by time. -/
theorem convertChangepoints_facts (minC : ℚ) (psigs : List SigRec) (values : List ℚ)
    (changePoints : List ℕ)
    (hn : values.length = psigs.length) (hne : psigs ≠ [])
    (hsorted : List.Pairwise (fun x y => x.timestamp ≤ y.timestamp) psigs)
    (hmc : minC ≤ 95/100)
    (hchain : List.Chain' (· < ·) changePoints)
    (hbnd : ∀ k ∈ changePoints, 0 < k ∧ k ≤ values.length) :
    (∀ x ∈ convertChangepoints minC psigs values changePoints,
      x.transitionType = "changepoint" ∧ x.confidence ≤ 95/100 ∧
      periodStartTime psigs ≤ x.transitionTime ∧ x.transitionTime ≤ periodEndTime psigs) ∧
    List.Pairwise (fun x y => x.transitionTime ≤ y.transitionTime)
      (convertChangepoints minC psigs values changePoints) := by
  have hmem := cps_bounds changePoints values.length hchain hbnd
  simp only [convertChangepoints]
  set cps := if changePoints = [] ∨ changePoints.getLast? = some values.length
    then changePoints.dropLast else changePoints with hcps
  have hsub : cps.Sublist changePoints := by
    rw [hcps]
    split
    · exact List.dropLast_sublist _
    · exact List.Sublist.refl _
  haveI : IsTrans ℕ (· < ·) := ⟨fun a b c => Nat.lt_trans⟩
  have hcchain : List.Chain' (· < ·) cps := hchain.sublist hsub
  by_cases hcne : cps = []
  · rw [if_pos hcne]
    exact ⟨by simp, List.Pairwise.nil⟩
  · rw [if_neg hcne]
    have hn0 : 0 < values.length := by
      rw [hn]
      exact List.length_pos.mpr hne
    have hfull : List.Chain' (· < ·) (0 :: (cps ++ [values.length])) := by
      rw [show (0 :: (cps ++ [values.length])) = (0 :: cps) ++ [values.length] from rfl]
      rw [List.chain'_append]
      refine ⟨?_, List.chain'_singleton _, ?_⟩
      · rw [List.chain'_cons']
        exact ⟨fun y hy => (hmem y (List.mem_of_mem_head? hy)).1, hcchain⟩
      · intro z hz y hy
        rw [getLast?_cons_ne_nil 0 hcne] at hz
        simp only [List.head?_cons, Option.mem_def, Option.some_inj] at hy
        subst hy
        exact (hmem z (List.mem_of_mem_getLast? hz)).2
    refine ⟨?_, ?_⟩
    · intro x hx
      rw [List.mem_map] at hx
      obtain ⟨t, ht, rfl⟩ := hx
      have htm : t.2.1 ∈ cps := by
        have h1 := cpTriples_middle_mem 0 (cps ++ [values.length]) t ht
        rw [List.dropLast_concat] at h1
        exact h1
      have hb := hmem t.2.1 htm
      refine ⟨rfl, ?_, ?_, ?_⟩
      · exact calcChangepointConfidence_le minC _ _ hmc
      · exact (sorted_getD_bounds psigs hsorted t.2.1 (hn ▸ hb.2)).1
      · exact (sorted_getD_bounds psigs hsorted t.2.1 (hn ▸ hb.2)).2
    · have htrip := cpTriples_chain (· < ·) (0 :: (cps ++ [values.length])) hfull
      have hchain2 : List.Chain' (fun x y : Transition => x.transitionTime ≤ y.transitionTime)
          (List.map (fun t => mkChangepointTransition minC psigs values t.1 t.2.1 t.2.2)
            (cpTriples (0 :: (cps ++ [values.length])))) := by
        rw [List.chain'_map]
        have hwith := chain'_with_mem htrip
          (fun t ht => cpTriples_middle_mem 0 (cps ++ [values.length]) t ht)
        refine hwith.imp ?_
        intro t u h
        obtain ⟨ht1, hlt, hu1⟩ := h
        rw [List.dropLast_concat] at ht1 hu1
        have hbt := hmem t.2.1 ht1
        have hbu := hmem u.2.1 hu1
        show (psigs.getD t.2.1 defaultSigRec).timestamp ≤
          (psigs.getD u.2.1 defaultSigRec).timestamp
        rw [List.getD_eq_getElem psigs defaultSigRec (hn ▸ hbt.2),
          List.getD_eq_getElem psigs defaultSigRec (hn ▸ hbu.2)]
        exact List.pairwise_iff_getElem.mp hsorted t.2.1 u.2.1 (hn ▸ hbt.2) (hn ▸ hbu.2) hlt
      haveI : IsTrans Transition (fun x y => x.transitionTime ≤ y.transitionTime) :=
        ⟨fun a b c hab hbc => le_trans hab hbc⟩
      exact List.chain'_iff_pairwise.mp hchain2

/-- The per-period PELT transitions are changepoints bounded by 0.95
confidence, timed inside the period, and sorted. -/
theorem peltRunTransitions_facts (cfg : PeltConfig) (predict : List ℚ → List ℕ)
    (extract : List SigRec → List ℚ) (psigs : List SigRec)
    (hne : psigs ≠ [])
    (hsorted : List.Pairwise (fun x y => x.timestamp ≤ y.timestamp) psigs)
    (hmc : cfg.minConfidence ≤ 95/100)
    (hext : ∀ l, (extract l).length = l.length)
    (hpred : ∀ v, List.Chain' (· < ·) (predict v) ∧ ∀ k ∈ predict v, 0 < k ∧ k ≤ v.length) :
    (∀ x ∈ peltRunTransitions cfg predict extract psigs,
      x.transitionType = "changepoint" ∧ x.confidence ≤ 95/100 ∧
      periodStartTime psigs ≤ x.transitionTime ∧ x.transitionTime ≤ periodEndTime psigs) ∧
    List.Pairwise (fun x y => x.transitionTime ≤ y.transitionTime)
      (peltRunTransitions cfg predict extract psigs) := by
  simp only [peltRunTransitions]
  split
  · split
    · exact ⟨by simp, List.Pairwise.nil⟩
    · exact convertChangepoints_facts cfg.minConfidence psigs (extract psigs)
        (predict (extract psigs)) (hext psigs) hne hsorted hmc
        (hpred (extract psigs)).1 (hpred (extract psigs)).2
  · exact ⟨by simp, List.Pairwise.nil⟩

/-- Within every `chunksBy` chunk no split condition holds between
consecutive elements. -/
theorem chunksBy_internal {α : Type} (nc : α → α → Bool) :
    ∀ (l : List α), ∀ c ∈ chunksBy nc l, List.Chain' (fun x y => nc x y = false) c
  | [] => by simp [chunksBy]
  | a :: rest => fun c hc => chunkBy_internal nc rest a c hc

/-- `max(group, key=confidence)` returns a member of the group. -/
theorem maxConfFold_mem : ∀ (rest : List Transition) (t : Transition),
    maxConfFold t rest ∈ t :: rest
  | [], _ => List.mem_cons_self _ _
  | u :: rest, t => by
    have heq : maxConfFold t (u :: rest) =
        maxConfFold (if t.confidence < u.confidence then u else t) rest := rfl
    rw [heq]
    have h := maxConfFold_mem rest (if t.confidence < u.confidence then u else t)
    rcases List.mem_cons.mp h with h | h
    · rw [h]
      split
      · exact List.mem_cons_of_mem _ (List.mem_cons_self _ _)
      · exact List.mem_cons_self _ _
    · exact List.mem_cons_of_mem _ (List.mem_cons_of_mem _ h)

/-- When the last element's confidence strictly dominates the rest,
`max(group, key=confidence)` picks it. -/
theorem maxConfFold_last_max : ∀ (cs : List Transition) (t g : Transition),
    (∀ x ∈ t :: cs, x.confidence < g.confidence) →
    maxConfFold t (cs ++ [g]) = g
  | [], t, g, h => by
    have heq : maxConfFold t ([] ++ [g]) =
        (if t.confidence < g.confidence then g else t) := rfl
    rw [heq, if_pos (h t (List.mem_cons_self _ _))]
  | u :: cs, t, g, h => by
    have heq : maxConfFold t ((u :: cs) ++ [g]) =
        maxConfFold (if t.confidence < u.confidence then u else t) (cs ++ [g]) := rfl
    rw [heq]
    refine maxConfFold_last_max cs _ g ?_
    intro x hx
    rcases List.mem_cons.mp hx with hx | hx
    · subst hx
      split
      · exact h u (List.mem_cons_of_mem _ (List.mem_cons_self _ _))
      · exact h t (List.mem_cons_self _ _)
    · exact h x (List.mem_cons_of_mem _ (List.mem_cons_of_mem _ hx))

/-- `_merge_transition_group` on a group of at least two transitions. -/
theorem mergeTransitionGroup_cons_cons (t u : Transition) (rest : List Transition) :
    mergeTransitionGroup (t :: u :: rest) =
      some { maxConfFold t (u :: rest) with
        confidence := min 1 ((maxConfFold t (u :: rest)).confidence * (11/10)) } := rfl

/-- A nonempty group merges to a representative sharing the
transition type of a member. -/
theorem mergeTransitionGroup_some : ∀ (c : List Transition), c ≠ [] →
    ∃ t u, mergeTransitionGroup c = some t ∧ u ∈ c ∧
      t.transitionType = u.transitionType
  | [], h => absurd rfl h
  | [t], _ => ⟨t, t, rfl, List.mem_cons_self _ _, rfl⟩
  | t :: u :: rest, _ =>
    ⟨_, maxConfFold t (u :: rest), mergeTransitionGroup_cons_cons t u rest,
      maxConfFold_mem _ _, rfl⟩

/-- Boosting a `data_gap` transition's confidence by 10% capped at 1.0
leaves it unchanged (its confidence is already 1.0). -/
theorem dataGap_boost (τ : ℚ) :
    ({ dataGapTransition τ with
      confidence := min 1 ((dataGapTransition τ).confidence * (11/10)) } : Transition) =
      dataGapTransition τ := by
  have h : min (1:ℚ) ((dataGapTransition τ).confidence * (11/10)) = 1 := by
    norm_num [dataGapTransition]
  rw [h]
  rfl

/-- A group that ends with a `data_gap` and whose other members have
confidence below 1.0 merges to exactly that `data_gap`. -/
theorem mergeTransitionGroup_gap : ∀ (cs : List Transition) (τ : ℚ),
    (∀ x ∈ cs, x.confidence < 1) →
    mergeTransitionGroup (cs ++ [dataGapTransition τ]) = some (dataGapTransition τ)
  | [], _, _ => rfl
  | t :: cs, τ, h => by
    have hconf : ∀ x ∈ t :: cs, x.confidence < (dataGapTransition τ).confidence := h
    have hrep := maxConfFold_last_max cs t (dataGapTransition τ) hconf
    cases cs with
    | nil =>
      rw [show ([t] : List Transition) ++ [dataGapTransition τ] =
        t :: [dataGapTransition τ] from rfl]
      rw [mergeTransitionGroup_cons_cons]
      have hrep2 : maxConfFold t [dataGapTransition τ] = dataGapTransition τ := hrep
      rw [hrep2, dataGap_boost]
    | cons u cs' =>
      rw [show (t :: u :: cs') ++ [dataGapTransition τ] =
        t :: u :: (cs' ++ [dataGapTransition τ]) from rfl]
      rw [mergeTransitionGroup_cons_cons]
      have hrep2 : maxConfFold t (u :: (cs' ++ [dataGapTransition τ])) =
          dataGapTransition τ := hrep
      rw [hrep2, dataGap_boost]

/-- Per merge group: when every member is either a sub-0.95 changepoint
or a `data_gap`, and only the last member may be a `data_gap`, merging
preserves the count of any fixed `data_gap` transition. -/
theorem mergeGroup_countP_chunk (τ : ℚ) (c : List Transition) (hne : c ≠ [])
    (hP : ∀ x ∈ c, (x.transitionType = "changepoint" ∧ x.confidence ≤ 95/100) ∨
      x = dataGapTransition x.transitionTime)
    (hdl : ∀ x ∈ c.dropLast, x.transitionType ≠ "data_gap") :
    ∃ t, mergeTransitionGroup c = some t ∧
      List.countP (fun w => decide (w = dataGapTransition τ)) [t] =
        List.countP (fun w => decide (w = dataGapTransition τ)) c := by
  obtain ⟨cs, z, rfl⟩ : ∃ cs z, c = cs ++ [z] :=
    ⟨c.dropLast, c.getLast hne, (List.dropLast_append_getLast hne).symm⟩
  rw [List.dropLast_concat] at hdl
  by_cases hz : z.transitionType = "data_gap"
  · have hPz := hP z (List.mem_append.mpr (Or.inr (List.mem_singleton_self _)))
    have hzg : z = dataGapTransition z.transitionTime := by
      rcases hPz with h | h
      · rw [h.1] at hz
        exact absurd hz (by decide)
      · exact h
    have hconf : ∀ x ∈ cs, x.confidence < 1 := by
      intro x hx
      rcases hP x (List.mem_append.mpr (Or.inl hx)) with h | h
      · exact lt_of_le_of_lt h.2 (by norm_num)
      · exfalso
        refine hdl x hx ?_
        rw [h]
        rfl
    refine ⟨dataGapTransition z.transitionTime, ?_, ?_⟩
    · rw [show cs ++ [z] = cs ++ [dataGapTransition z.transitionTime] by rw [← hzg]]
      exact mergeTransitionGroup_gap cs z.transitionTime hconf
    · rw [List.countP_append]
      have h0 : List.countP (fun w => decide (w = dataGapTransition τ)) cs = 0 := by
        rw [List.countP_eq_zero]
        intro x hx hpx
        have hxe : x = dataGapTransition τ := of_decide_eq_true hpx
        refine hdl x hx ?_
        rw [hxe]
        rfl
      rw [h0, Nat.zero_add]
      conv_rhs => rw [hzg]
  · obtain ⟨t, u, hmerge, humem, htype⟩ := mergeTransitionGroup_some (cs ++ [z]) (by simp)
    refine ⟨t, hmerge, ?_⟩
    have hall : ∀ x ∈ cs ++ [z], x.transitionType ≠ "data_gap" := by
      intro x hx
      rcases List.mem_append.mp hx with h | h
      · exact hdl x h
      · rw [List.mem_singleton] at h
        subst h
        exact hz
    have h1 : List.countP (fun w => decide (w = dataGapTransition τ)) [t] = 0 := by
      rw [List.countP_eq_zero]
      intro x hx hpx
      rw [List.mem_singleton] at hx
      subst hx
      have hxe : x = dataGapTransition τ := of_decide_eq_true hpx
      refine hall u humem ?_
      rw [← htype, hxe]
      rfl
    have h2 : List.countP (fun w => decide (w = dataGapTransition τ)) (cs ++ [z]) = 0 := by
      rw [List.countP_eq_zero]
      intro x hx hpx
      have hxe : x = dataGapTransition τ := of_decide_eq_true hpx
      refine hall x hx ?_
      rw [hxe]
      rfl
    rw [h1, h2]

/-- Merging chunk by chunk preserves the count of any fixed `data_gap`
transition when every chunk satisfies the merge-group conditions. -/
theorem filterMap_merge_countP (τ : ℚ) : ∀ (chunks : List (List Transition)),
    (∀ c ∈ chunks, c ≠ []) →
    (∀ c ∈ chunks, ∀ x ∈ c,
      (x.transitionType = "changepoint" ∧ x.confidence ≤ 95/100) ∨
        x = dataGapTransition x.transitionTime) →
    (∀ c ∈ chunks, ∀ x ∈ c.dropLast, x.transitionType ≠ "data_gap") →
    List.countP (fun w => decide (w = dataGapTransition τ))
        (List.filterMap mergeTransitionGroup chunks) =
      List.countP (fun w => decide (w = dataGapTransition τ)) chunks.flatten
  | [], _, _, _ => rfl
  | c :: chunks, hne, hP, hdl => by
    obtain ⟨t, hmerge, hcount⟩ := mergeGroup_countP_chunk τ c (hne c (List.mem_cons_self _ _))
      (hP c (List.mem_cons_self _ _)) (hdl c (List.mem_cons_self _ _))
    have hsplit : t :: List.filterMap mergeTransitionGroup chunks =
        [t] ++ List.filterMap mergeTransitionGroup chunks := rfl
    rw [List.filterMap_cons_some hmerge, hsplit, List.countP_append,
      List.flatten_cons, List.countP_append, hcount,
      filterMap_merge_countP τ chunks (fun d hd => hne d (List.mem_cons_of_mem _ hd))
        (fun d hd => hP d (List.mem_cons_of_mem _ hd))
        (fun d hd => hdl d (List.mem_cons_of_mem _ hd))]

/-- `merge_close_transitions` preserves the count of any fixed `data_gap`
transition on a sorted list whose members are sub-0.95 changepoints or
`data_gap`s and where a `data_gap` is never followed within the minimum
gap. -/
theorem mergeClose_countP (minGap τ : ℚ) (build : List Transition)
    (hsorted : List.Pairwise (fun x y => x.transitionTime ≤ y.transitionTime) build)
    (hP : ∀ x ∈ build, (x.transitionType = "changepoint" ∧ x.confidence ≤ 95/100) ∨
      x = dataGapTransition x.transitionTime)
    (hH2 : List.Chain' (fun x y => x.transitionType = "data_gap" →
      ¬(y.transitionTime - x.transitionTime < minGap)) build) :
    List.countP (fun w => decide (w = dataGapTransition τ))
        (mergeCloseTransitions minGap build) =
      List.countP (fun w => decide (w = dataGapTransition τ)) build := by
  rw [mergeCloseTransitions]
  split
  · rfl
  · rw [List.mergeSort_of_sorted (hsorted.imp (fun h => decide_eq_true h))]
    rw [groupCloseTransitions]
    have hflat := chunksBy_join (groupGapSplit minGap) build
    conv_rhs => rw [← hflat]
    refine filterMap_merge_countP τ (chunksBy (groupGapSplit minGap) build)
      (chunksBy_ne_nil _ build) ?_ ?_
    · intro c hc x hx
      exact hP x ((chunksBy_sublist _ build c hc).subset hx)
    · intro c hc x hx
      obtain ⟨L₁, L₂, hLL⟩ := List.append_of_mem hc
      have hc2 : List.Chain' (fun x y => x.transitionType = "data_gap" →
          ¬(y.transitionTime - x.transitionTime < minGap)) c := by
        have h1 : build = L₁.flatten ++ (c ++ L₂.flatten) := by
          conv_lhs => rw [← hflat]
          rw [hLL]
          simp [List.flatten_append]
        have h2 := hH2
        rw [h1] at h2
        exact h2.right_of_append.left_of_append
      have hcomb := chain'_conj (chunksBy_internal (groupGapSplit minGap) build c hc) hc2
      have hfun : ∀ (w y : Transition),
          (groupGapSplit minGap w y = false ∧ (w.transitionType = "data_gap" →
            ¬(y.transitionTime - w.transitionTime < minGap))) →
          w.transitionType ≠ "data_gap" := by
        intro w y hw hwt
        obtain ⟨hint, hh2⟩ := hw
        have hlt : y.transitionTime - w.transitionTime < minGap := by
          simpa [groupGapSplit] using hint
        exact hh2 hwt hlt
      exact chain'_dropLast_prop hfun c hcomb x hx

/-- Every transition built by the per-period loop is a PELT transition
of some period or the `data_gap` at some period's end. -/
theorem buildPeriodTransitions_mem (cfg : PeltConfig) (predict : List ℚ → List ℕ)
    (extract : List SigRec → List ℚ) (endTime : ℚ) :
    ∀ runs : List (List SigRec),
      ∀ x ∈ buildPeriodTransitions cfg predict extract endTime runs,
        (∃ q ∈ runs, x ∈ peltRunTransitions cfg predict extract q) ∨
        (∃ q ∈ runs, x = dataGapTransition (periodEndTime q))
  | [] => by simp [buildPeriodTransitions]
  | [r] => by
    intro x hx
    rw [buildPeriodTransitions] at hx
    rcases List.mem_append.mp hx with h | h
    · exact Or.inl ⟨r, List.mem_cons_self _ _, h⟩
    · right
      refine ⟨r, List.mem_cons_self _ _, ?_⟩
      split at h
      · rw [List.mem_singleton] at h
        exact h
      · simp at h
  | r :: r2 :: rest => by
    intro x hx
    rw [buildPeriodTransitions] at hx
    rcases List.mem_append.mp hx with h | h
    · rcases List.mem_append.mp h with h2 | h2
      · exact Or.inl ⟨r, List.mem_cons_self _ _, h2⟩
      · right
        rw [List.mem_singleton] at h2
        exact ⟨r, List.mem_cons_self _ _, h2⟩
    · rcases buildPeriodTransitions_mem cfg predict extract endTime (r2 :: rest) x h with
        ⟨q, hq, hm⟩ | ⟨q, hq, hm⟩
      · exact Or.inl ⟨q, List.mem_cons_of_mem _ hq, hm⟩
      · exact Or.inr ⟨q, List.mem_cons_of_mem _ hq, hm⟩

/-- A changepoint-typed transition vacuously satisfies the
after-a-`data_gap` separation condition. -/
theorem changepoint_vacuous_gap (minGap : ℚ) : ∀ x y : Transition,
    x.transitionType = "changepoint" →
    (x.transitionType = "data_gap" →
      ¬(y.transitionTime - x.transitionTime < minGap)) := by
  intro x y hx hgap
  rw [hx] at hgap
  exact absurd hgap (by decide)

/-- The per-period loop over nonempty sorted periods separated by more
than the gap threshold builds a list whose members are sub-0.95
changepoints or `data_gap`s timed at or after the first period's start,
sorted by time, and in which a `data_gap` is never followed within the
minimum transition gap. -/
theorem buildPeriodTransitions_facts (cfg : PeltConfig) (predict : List ℚ → List ℕ)
    (extract : List SigRec → List ℚ) (endTime : ℚ)
    (hmc : cfg.minConfidence ≤ 95/100)
    (hg0 : 0 ≤ cfg.gapThresholdSeconds)
    (hmg : cfg.minTransitionGap ≤ cfg.gapThresholdSeconds)
    (hext : ∀ l, (extract l).length = l.length)
    (hpred : ∀ v, List.Chain' (· < ·) (predict v) ∧ ∀ k ∈ predict v, 0 < k ∧ k ≤ v.length) :
    ∀ (rest : List (List SigRec)) (r : List SigRec),
      (∀ q ∈ r :: rest, q ≠ []) →
      (∀ q ∈ r :: rest, List.Pairwise (fun x y => x.timestamp ≤ y.timestamp) q) →
      List.Chain' (fun q q' =>
        periodEndTime q + cfg.gapThresholdSeconds < periodStartTime q') (r :: rest) →
      (∀ x ∈ buildPeriodTransitions cfg predict extract endTime (r :: rest),
        ((x.transitionType = "changepoint" ∧ x.confidence ≤ 95/100) ∨
          x = dataGapTransition x.transitionTime) ∧
        periodStartTime r ≤ x.transitionTime) ∧
      List.Pairwise (fun x y => x.transitionTime ≤ y.transitionTime)
        (buildPeriodTransitions cfg predict extract endTime (r :: rest)) ∧
      List.Chain' (fun x y => x.transitionType = "data_gap" →
        ¬(y.transitionTime - x.transitionTime < cfg.minTransitionGap))
        (buildPeriodTransitions cfg predict extract endTime (r :: rest))
  | [], r => by
    intro hne hsq hchain
    have hrne : r ≠ [] := hne r (List.mem_cons_self _ _)
    have hrs := hsq r (List.mem_cons_self _ _)
    have hfacts := peltRunTransitions_facts cfg predict extract r hrne hrs hmc hext hpred
    have hse := period_start_le_end r hrne hrs
    rw [buildPeriodTransitions]
    refine ⟨?_, ?_, ?_⟩
    · intro x hx
      rcases List.mem_append.mp hx with h | h
      · exact ⟨Or.inl ⟨(hfacts.1 x h).1, (hfacts.1 x h).2.1⟩, (hfacts.1 x h).2.2.1⟩
      · split at h
        · rw [List.mem_singleton] at h
          subst h
          exact ⟨Or.inr rfl, hse⟩
        · simp at h
    · rw [List.pairwise_append]
      refine ⟨hfacts.2, ?_, ?_⟩
      · split
        · exact List.pairwise_singleton _ _
        · exact List.Pairwise.nil
      · intro a ha b hb
        split at hb
        · rw [List.mem_singleton] at hb
          subst hb
          exact (hfacts.1 a ha).2.2.2
        · simp at hb
    · rw [List.chain'_append]
      refine ⟨(pairwise_of_mem_imp (fun x hx => (hfacts.1 x hx).1)
          (changepoint_vacuous_gap cfg.minTransitionGap)).chain', ?_, ?_⟩
      · split
        · exact List.chain'_singleton _
        · exact List.chain'_nil
      · intro z hz y hy
        exact changepoint_vacuous_gap cfg.minTransitionGap z y
          (hfacts.1 z (List.mem_of_mem_getLast? hz)).1
  | r2 :: rest', r => by
    intro hne hsq hchain
    have hrne : r ≠ [] := hne r (List.mem_cons_self _ _)
    have hrs := hsq r (List.mem_cons_self _ _)
    have hfacts := peltRunTransitions_facts cfg predict extract r hrne hrs hmc hext hpred
    have hse := period_start_le_end r hrne hrs
    have hch := List.chain'_cons.mp hchain
    have ih := buildPeriodTransitions_facts cfg predict extract endTime hmc hg0 hmg hext hpred
      rest' r2
      (fun q hq => hne q (List.mem_cons_of_mem _ hq))
      (fun q hq => hsq q (List.mem_cons_of_mem _ hq))
      hch.2
    have hj : periodEndTime r + cfg.gapThresholdSeconds < periodStartTime r2 := hch.1
    have hlow : ∀ x ∈ buildPeriodTransitions cfg predict extract endTime (r2 :: rest'),
        periodEndTime r + cfg.gapThresholdSeconds < x.transitionTime := by
      intro x hx
      exact lt_of_lt_of_le hj (ih.1 x hx).2
    have hub : ∀ a ∈ peltRunTransitions cfg predict extract r ++
        [dataGapTransition (periodEndTime r)], a.transitionTime ≤ periodEndTime r := by
      intro a ha
      rcases List.mem_append.mp ha with h | h
      · exact (hfacts.1 a h).2.2.2
      · rw [List.mem_singleton] at h
        subst h
        exact le_refl _
    rw [buildPeriodTransitions]
    refine ⟨?_, ?_, ?_⟩
    · intro x hx
      rcases List.mem_append.mp hx with h | h
      · rcases List.mem_append.mp h with h2 | h2
        · exact ⟨Or.inl ⟨(hfacts.1 x h2).1, (hfacts.1 x h2).2.1⟩, (hfacts.1 x h2).2.2.1⟩
        · rw [List.mem_singleton] at h2
          subst h2
          exact ⟨Or.inr rfl, hse⟩
      · refine ⟨(ih.1 x h).1, ?_⟩
        have h2 := hlow x h
        linarith
    · rw [List.pairwise_append]
      refine ⟨?_, ih.2.1, ?_⟩
      · rw [List.pairwise_append]
        refine ⟨hfacts.2, List.pairwise_singleton _ _, ?_⟩
        intro a ha b hb
        rw [List.mem_singleton] at hb
        subst hb
        exact (hfacts.1 a ha).2.2.2
      · intro a ha b hb
        have h1 := hub a ha
        have h2 := hlow b hb
        linarith
    · rw [List.chain'_append]
      refine ⟨?_, ih.2.2, ?_⟩
      · rw [List.chain'_append]
        refine ⟨(pairwise_of_mem_imp (fun x hx => (hfacts.1 x hx).1)
            (changepoint_vacuous_gap cfg.minTransitionGap)).chain',
          List.chain'_singleton _, ?_⟩
        intro z hz y hy
        exact changepoint_vacuous_gap cfg.minTransitionGap z y
          (hfacts.1 z (List.mem_of_mem_getLast? hz)).1
      · intro z hz y hy
        rw [List.getLast?_concat] at hz
        simp only [Option.mem_def, Option.some_inj] at hz
        subst hz
        intro hgap hlt
        have h2 := hlow y (List.mem_of_mem_head? hy)
        simp only [dataGapTransition] at hlt
        linarith

/-- When period ends strictly increase along the period list, the built
transition list contains exactly one copy of the `data_gap` at the end of
any chosen non-final period. -/
theorem buildPeriodTransitions_count (cfg : PeltConfig) (predict : List ℚ → List ℕ)
    (extract : List SigRec → List ℚ) (endTime τ : ℚ) :
    ∀ (R₁ : List (List SigRec)) (r : List SigRec) (R₂ : List (List SigRec)),
      R₂ ≠ [] →
      List.Pairwise (fun q q' => periodEndTime q < periodEndTime q') (R₁ ++ r :: R₂) →
      periodEndTime r = τ →
      List.countP (fun w => decide (w = dataGapTransition τ))
        (buildPeriodTransitions cfg predict extract endTime (R₁ ++ r :: R₂)) = 1
  | [], r, R₂ => by
    intro hR2 hpw hτ
    subst hτ
    obtain ⟨r2, rest, rfl⟩ := List.exists_cons_of_ne_nil hR2
    rw [List.nil_append] at hpw ⊢
    rw [buildPeriodTransitions, List.countP_append, List.countP_append]
    have h1 : List.countP (fun w => decide (w = dataGapTransition (periodEndTime r)))
        (peltRunTransitions cfg predict extract r) = 0 := by
      rw [List.countP_eq_zero]
      intro x hx hpx
      have hxe := of_decide_eq_true hpx
      have ht := peltRun_type cfg predict extract r x hx
      rw [hxe] at ht
      simp [dataGapTransition] at ht
    have h2 : List.countP (fun w => decide (w = dataGapTransition (periodEndTime r)))
        [dataGapTransition (periodEndTime r)] = 1 := by
      simp
    have h3 : List.countP (fun w => decide (w = dataGapTransition (periodEndTime r)))
        (buildPeriodTransitions cfg predict extract endTime (r2 :: rest)) = 0 := by
      rw [List.countP_eq_zero]
      intro x hx hpx
      have hxe := of_decide_eq_true hpx
      rcases buildPeriodTransitions_mem cfg predict extract endTime (r2 :: rest) x hx with
        ⟨q, hq, hm⟩ | ⟨q, hq, hm⟩
      · have ht := peltRun_type cfg predict extract q x hm
        rw [hxe] at ht
        simp [dataGapTransition] at ht
      · rw [hxe] at hm
        have heq : periodEndTime r = periodEndTime q := by
          have hc := congrArg Transition.transitionTime hm
          simpa [dataGapTransition] using hc
        have hlt : periodEndTime r < periodEndTime q :=
          (List.pairwise_cons.mp hpw).1 q hq
        linarith
    rw [h1, h2, h3]
  | q₁ :: R₁', r, R₂ => by
    intro hR2 hpw hτ
    subst hτ
    rw [List.cons_append] at hpw ⊢
    have hpwc := List.pairwise_cons.mp hpw
    obtain ⟨h, t, hht⟩ := List.exists_cons_of_ne_nil
      (show R₁' ++ r :: R₂ ≠ [] from by simp)
    rw [hht, buildPeriodTransitions, ← hht]
    rw [List.countP_append, List.countP_append]
    have h1 : List.countP (fun w => decide (w = dataGapTransition (periodEndTime r)))
        (peltRunTransitions cfg predict extract q₁) = 0 := by
      rw [List.countP_eq_zero]
      intro x hx hpx
      have hxe := of_decide_eq_true hpx
      have ht := peltRun_type cfg predict extract q₁ x hx
      rw [hxe] at ht
      simp [dataGapTransition] at ht
    have h2 : List.countP (fun w => decide (w = dataGapTransition (periodEndTime r)))
        [dataGapTransition (periodEndTime q₁)] = 0 := by
      rw [List.countP_eq_zero]
      intro x hx hpx
      rw [List.mem_singleton] at hx
      subst hx
      have hxe := of_decide_eq_true hpx
      have heq : periodEndTime q₁ = periodEndTime r := by
        have hc := congrArg Transition.transitionTime hxe
        simpa [dataGapTransition] using hc
      have hlt : periodEndTime q₁ < periodEndTime r :=
        hpwc.1 r (List.mem_append.mpr (Or.inr (List.mem_cons_self _ _)))
      linarith
    have h3 := buildPeriodTransitions_count cfg predict extract endTime
      (periodEndTime r) R₁' r R₂ hR2 hpwc.2 rfl
    rw [h1, h2, h3]

/-- `validate_transitions` keeps the count of a fixed `data_gap`
transition unchanged when its time lies in the window and the confidence
floor is at most 1.0. -/
theorem validateTransitions_countP (minC : ℚ) (ts : List Transition)
    (startTime endTime τ : ℚ)
    (hwin : startTime ≤ τ ∧ τ ≤ endTime) (hc : minC ≤ 1) :
    List.countP (fun w => decide (w = dataGapTransition τ))
        (validateTransitions minC ts startTime endTime) =
      List.countP (fun w => decide (w = dataGapTransition τ)) ts := by
  rw [validateTransitions]
  rw [(List.mergeSort_perm _ _).countP_eq]
  rw [List.countP_filter]
  refine List.countP_congr ?_
  intro x hx
  constructor
  · intro hand
    rw [Bool.and_eq_true] at hand
    exact hand.1
  · intro hp
    have hxe := of_decide_eq_true hp
    rw [Bool.and_eq_true]
    refine ⟨hp, ?_⟩
    subst hxe
    simp [dataGapTransition, hwin.1, hwin.2, hc]

/-- Consecutive collection periods are separated by more than the gap
threshold (end of one to start of the next). -/
theorem collectionRuns_junction (g : ℚ) (l : List SigRec) (hl : l ≠ []) :
    List.Chain' (fun q q' => periodEndTime q + g < periodStartTime q')
      (collectionRuns g l) := by
  obtain ⟨x, rest, rfl⟩ := List.exists_cons_of_ne_nil hl
  have hj := chunkBy_junction (runGapSplit g) rest x
  have hne := chunkBy_chunks_ne_nil (runGapSplit g) x rest
  rw [collectionRuns]
  simp only [chunksBy]
  refine (chain'_with_mem hj hne).imp ?_
  intro q q' h
  obtain ⟨hq, hrel, hq'⟩ := h
  have h1 := hrel (q.getLast hq) (List.getLast?_eq_getLast q hq)
    (q'.head hq') (List.head?_eq_head hq')
  have h2 : (q'.head hq').timestamp - (q.getLast hq).timestamp > g := by
    simpa [runGapSplit] using h1
  have he : periodEndTime q = (q.getLast hq).timestamp := by
    rw [periodEndTime, List.getLast?_eq_getLast q hq]
    rfl
  have hs : periodStartTime q' = (q'.head hq').timestamp := by
    rw [periodStartTime, List.head?_eq_head hq']
    rfl
  rw [he, hs]
  linarith

/-- C6 amended: for every input to the change-point (PELT) detector whose
sorted samples contain a consecutive pair separated by more than
`gap_threshold_seconds`, provided all sample timestamps lie within the
requested window, `min_transition_gap` is at most `gap_threshold_seconds`
(nonnegative), `min_confidence` is at most 0.95, the value extraction
preserves length, and the `ruptures` breakpoints are strictly increasing
within `(0, len(values)]`, the detector's output contains exactly one
`data_gap` transition at the timestamp of the last sample of the earlier
run — that transition carrying confidence 1.0 by construction. -/
theorem peltDetect_one_gap_per_gap (cfg : PeltConfig) (predict : List ℚ → List ℕ)
    (extract : List SigRec → List ℚ) (signals : List SigRec) (startTime endTime : ℚ)
    (l₁ l₂ : List SigRec) (a b : SigRec)
    (hsplit : signals.mergeSort (fun x y => decide (x.timestamp ≤ y.timestamp)) =
      l₁ ++ a :: b :: l₂)
    (hgap : b.timestamp - a.timestamp > cfg.gapThresholdSeconds)
    (hwin : ∀ s ∈ signals, startTime ≤ s.timestamp ∧ s.timestamp ≤ endTime)
    (hmc : cfg.minConfidence ≤ 95/100)
    (hg0 : 0 ≤ cfg.gapThresholdSeconds)
    (hmg : cfg.minTransitionGap ≤ cfg.gapThresholdSeconds)
    (hext : ∀ l, (extract l).length = l.length)
    (hpred : ∀ v, List.Chain' (· < ·) (predict v) ∧ ∀ k ∈ predict v, 0 < k ∧ k ≤ v.length) :
    List.countP (fun w => decide (w = dataGapTransition a.timestamp))
      (peltDetectTransitions cfg predict extract signals startTime endTime) = 1 := by
  have hsne : signals ≠ [] := by
    intro h
    rw [h, List.mergeSort_nil] at hsplit
    cases l₁ <;> simp at hsplit
  rw [peltDetectTransitions, if_neg hsne]
  set sorted := signals.mergeSort (fun x y : SigRec => decide (x.timestamp ≤ y.timestamp))
    with hsorteq
  have hsortedne : sorted ≠ [] := by
    rw [hsplit]
    cases l₁ <;> simp
  have hpwb : List.Pairwise
      (fun x y : SigRec => (decide (x.timestamp ≤ y.timestamp)) = true) sorted := by
    rw [hsorteq]
    refine List.sorted_mergeSort ?_ ?_ signals
    · intro x y z hxy hyz
      exact decide_eq_true (le_trans (of_decide_eq_true hxy) (of_decide_eq_true hyz))
    · intro x y
      rcases le_total x.timestamp y.timestamp with h | h <;> simp [h]
  have hpw : List.Pairwise (fun x y : SigRec => x.timestamp ≤ y.timestamp) sorted :=
    hpwb.imp (fun h => of_decide_eq_true h)
  have hamem : a ∈ signals := by
    have h1 : a ∈ sorted := by
      rw [hsplit]
      exact List.mem_append.mpr (Or.inr (List.mem_cons_self _ _))
    rw [hsorteq, List.mem_mergeSort] at h1
    exact h1
  set runs := collectionRuns cfg.gapThresholdSeconds sorted with hruns
  have hrne : ∀ q ∈ runs, q ≠ [] := by
    rw [hruns, collectionRuns]
    exact chunksBy_ne_nil _ sorted
  have hrsorted : ∀ q ∈ runs, List.Pairwise (fun x y => x.timestamp ≤ y.timestamp) q := by
    intro q hq
    refine List.Pairwise.sublist ?_ hpw
    rw [hruns, collectionRuns] at hq
    exact chunksBy_sublist _ sorted q hq
  have hjunc : List.Chain' (fun q q' =>
      periodEndTime q + cfg.gapThresholdSeconds < periodStartTime q') runs := by
    rw [hruns]
    exact collectionRuns_junction cfg.gapThresholdSeconds sorted hsortedne
  have hmemP : ∀ q ∈ runs, q ∈ runs := fun q hq => hq
  have hendchain : List.Chain' (fun q q' => periodEndTime q < periodEndTime q') runs := by
    refine (chain'_with_mem hjunc hmemP).imp ?_
    intro q q' h
    obtain ⟨hq, hrel, hq'⟩ := h
    have hse' := period_start_le_end q' (hrne q' hq') (hrsorted q' hq')
    linarith
  have hendpw : List.Pairwise (fun q q' => periodEndTime q < periodEndTime q') runs := by
    haveI : IsTrans (List SigRec) (fun q q' => periodEndTime q < periodEndTime q') :=
      ⟨fun x y z hxy hyz => lt_trans hxy hyz⟩
    exact List.chain'_iff_pairwise.mp hendchain
  have hnc : runGapSplit cfg.gapThresholdSeconds a b = true := decide_eq_true hgap
  obtain ⟨cs1, c, cs2, hreq, hclast, hcs2⟩ :=
    chunksBy_locate (runGapSplit cfg.gapThresholdSeconds) sorted l₁ l₂ a b hsplit hnc
  have hreq2 : runs = cs1 ++ c :: cs2 := by
    rw [hruns, collectionRuns]
    exact hreq
  have hτ : periodEndTime c = a.timestamp := by
    rw [periodEndTime, hclast]
    rfl
  obtain ⟨r0, rrest, hshape⟩ := List.exists_cons_of_ne_nil (show runs ≠ [] from by
    rw [hreq2]
    cases cs1 <;> simp)
  have hfacts := buildPeriodTransitions_facts cfg predict extract endTime hmc hg0 hmg hext hpred
    rrest r0 (by rw [← hshape]; exact hrne) (by rw [← hshape]; exact hrsorted)
    (by rw [← hshape]; exact hjunc)
  set B := buildPeriodTransitions cfg predict extract endTime runs with hB
  have hBP : ∀ x ∈ B, ((x.transitionType = "changepoint" ∧ x.confidence ≤ 95/100) ∨
      x = dataGapTransition x.transitionTime) := by
    rw [hB, hshape]
    exact fun x hx => (hfacts.1 x hx).1
  have hBsorted : List.Pairwise (fun x y => x.transitionTime ≤ y.transitionTime) B := by
    rw [hB, hshape]
    exact hfacts.2.1
  have hBH2 : List.Chain' (fun x y => x.transitionType = "data_gap" →
      ¬(y.transitionTime - x.transitionTime < cfg.minTransitionGap)) B := by
    rw [hB, hshape]
    exact hfacts.2.2
  have hendpw2 : List.Pairwise (fun q q' => periodEndTime q < periodEndTime q')
      (cs1 ++ c :: cs2) := by
    rw [← hreq2]
    exact hendpw
  have hcount : List.countP (fun w => decide (w = dataGapTransition a.timestamp)) B = 1 := by
    rw [hB, hreq2]
    exact buildPeriodTransitions_count cfg predict extract endTime a.timestamp
      cs1 c cs2 hcs2 hendpw2 hτ
  rw [validateTransitions_countP cfg.minConfidence _ startTime endTime a.timestamp
    (hwin a hamem) (le_trans hmc (by norm_num)),
    mergeClose_countP cfg.minTransitionGap a.timestamp B hBsorted hBP hBH2,
    hcount]

/-- C6 amended witness: the two-sample input with a 1000-second gap under
the default configuration yields exactly one `data_gap` transition at
time 0. -/
theorem peltDetect_one_gap_per_gap_witness :
    List.countP (fun w => decide (w = dataGapTransition 0))
      (peltDetectTransitions peltDefaults predictNone extractZero gapSignals 0 1000) = 1 :=
  peltDetect_one_gap_per_gap peltDefaults predictNone extractZero gapSignals 0 1000
    [] [] ⟨0, "0", none⟩ ⟨1000, "0", none⟩
    (by
      rw [List.mergeSort_of_sorted (by norm_num [gapSignals])]
      rfl)
    (by norm_num [peltDefaults])
    (by norm_num [gapSignals])
    (by norm_num [peltDefaults])
    (by norm_num [peltDefaults])
    (by norm_num [peltDefaults])
    (fun l => by simp [extractZero])
    (fun v => ⟨List.chain'_nil, by simp [predictNone]⟩)

end Jaces
